import Mathlib

set_option autoImplicit false
set_option linter.unusedVariables false

namespace OpenSnitch

/-! # Go values used by `daemon/ui/notifications.go` -/

/-- A non-nil Go `error`, identified with the string its `Error()` method returns.
The `error` interface itself is `Option GoError`, where `none` is `nil`. -/
structure GoError where
  text : String
deriving DecidableEq, Repr

/-- Decimal digit to its character, as in `strconv`'s digit table. -/
def digitChar (d : Nat) : Char :=
  match d with
  | 0 => '0'
  | 1 => '1'
  | 2 => '2'
  | 3 => '3'
  | 4 => '4'
  | 5 => '5'
  | 6 => '6'
  | 7 => '7'
  | 8 => '8'
  | _ => '9'

/-- Decimal rendering of a natural number, most significant digit first. -/
def formatNat (n : Nat) : String :=
  String.mk (if n = 0 then ['0'] else ((Nat.digits 10 n).reverse.map digitChar))

/-- Decimal rendering of a Go `int` under the `%v` verb. -/
def formatInt (i : Int) : String :=
  match i with
  | Int.ofNat n => formatNat n
  | Int.negSucc n => "-" ++ formatNat (n + 1)

/-- An operand handed to `fmt.Sprint` / `fmt.Errorf` in the source. -/
inductive Operand where
  | str (s : String)
  | int (i : Int)
  | err (e : Option GoError)

/-- The `reflect.String` kind test of `fmt.doPrint`. -/
def Operand.isString : Operand → Bool
  | Operand.str _ => true
  | _ => false

/-- Rendering of an operand under the `%v` verb. -/
def Operand.render : Operand → String
  | Operand.str s => s
  | Operand.int i => formatInt i
  | Operand.err (some e) => e.text
  | Operand.err none => "<nil>"

/-- Rendering of an operand under the `%s` verb. -/
def Operand.renderS : Operand → String
  | Operand.str s => s
  | Operand.int i => "%!s(int=" ++ formatInt i ++ ")"
  | Operand.err (some e) => e.text
  | Operand.err none => "%!s(<nil>)"

/-- The loop of `fmt.doPrint`: a space is written between two operands when neither is
a string. -/
def doPrint : Nat → Bool → List Operand → String
  | _, _, [] => ""
  | argNum, prevString, arg :: rest =>
    (if 0 < argNum ∧ arg.isString = false ∧ prevString = false then " " else "")
      ++ arg.render ++ doPrint (argNum + 1) arg.isString rest

/-- Go `fmt.Sprint`. -/
def Sprint (a : List Operand) : String :=
  doPrint 0 false a

/-- Go `fmt.Errorf` for the formats of the source: a literal followed by one `%s` verb. -/
def Errorf (literal : String) (arg : Operand) : GoError :=
  ⟨literal ++ arg.renderS⟩

/-- Values of `protocol.NotificationReplyCode`. -/
inductive NotificationReplyCode where
  | OK
  | ERROR
deriving DecidableEq, Repr

/-- Fields of `protocol.NotificationReply`. -/
structure NotificationReply where
  Id : Nat
  Code : NotificationReplyCode
  Data : String
deriving DecidableEq, Repr

/-- Fields of `rule.Rule` the handlers read or write; `Body` stands for all the others. -/
structure Rule where
  Name : String
  Enabled : Bool
  Duration : String
  Body : String
deriving DecidableEq, Repr

/-- A `protocol.Rule` as received from the server. -/
structure ProtoRule where
  Name : String
  Payload : String
deriving DecidableEq, Repr

/-- Fields of `protocol.Notification` the handlers read. -/
structure Notification where
  Id : Nat
  Data : String
  Rules : List ProtoRule
  SysFirewall : String
deriving DecidableEq, Repr

/-- Fields of `monitor.Error`: `Msg` is a Go `error` and may be `nil`. -/
structure MonitorError where
  What : Int
  Msg : Option GoError
deriving DecidableEq, Repr

/-- The dynamic values `json.Unmarshal` stores in an `interface{}`. -/
inductive JVal where
  | str (s : String)
  | obj (fields : List (String × JVal))
  | other

/-- Fields of `tasks.TaskNotification`. -/
structure TaskNotification where
  Name : String
  Data : JVal

/-- Fields of the client configuration handed to the process monitor. -/
structure ClientConf where
  ProcMonitorMethod : String
  Ebpf : String
  Audit : String
deriving DecidableEq, Repr

/-- One observable effect of a handler: a call into a collaborator (with what it
returned, where the handler reads it) or a `go` statement. -/
inductive Event where
  | send (reply : NotificationReply)
  | rulesReplace (r : Rule) (saveToDisk : Bool) (result : Option GoError)
  | removeTask (key : String)
  | reconfigureMonitorMethod (conf : ClientConf)
  | monitorEnd
  | enableInterception
  | disableInterception
  | saveConfiguration (sysfw : String)
  | goDrainErrors (nID : Nat)
deriving DecidableEq, Repr

/-- The collaborators of the notification handlers, over a state `σ` they may change.
Constants whose declaration lives in another package are fields as well. -/
structure Env (σ : Type) where
  streamSend : σ → NotificationReply → σ × Option GoError
  ruleDeserialize : ProtoRule → Option Rule × Option GoError
  rulesReplace : σ → Rule → Bool → σ × Option GoError
  ruleAlways : String
  jsonUnmarshal : String → Except GoError TaskNotification
  atoi : String → Except GoError Int
  removeTask : σ → String → σ
  pidmonitorName : String
  nodemonitorName : String
  socketsmonitorName : String
  config : ClientConf
  reconfigureMonitorMethod : σ → ClientConf → σ × Option MonitorError
  monitorNoError : Int
  monitorEnd : σ → σ
  enableInterception : σ → σ × Option GoError
  disableInterception : σ → σ × Option GoError
  fwDeserialize : String → String × Option GoError
  saveConfiguration : σ → String → σ × Option GoError

/-- What a handler leaves behind: the collaborators' state, the effects in order, and
whether it stopped in a Go runtime panic. -/
structure Out (σ : Type) where
  st : σ
  events : List Event
  panicked : Bool

variable {σ : Type}

/-- The replies sent in a run, in order. -/
def sentReplies : List Event → List NotificationReply
  | [] => []
  | Event.send r :: rest => r :: sentReplies rest
  | _ :: rest => sentReplies rest

/-- The `rules.Replace` calls of a run, in order, as (rule, save-to-disk flag). -/
def replaceCalls : List Event → List (Rule × Bool)
  | [] => []
  | Event.rulesReplace r b _ :: rest => (r, b) :: replaceCalls rest
  | _ :: rest => replaceCalls rest

/-- The `rules.Replace` calls of a run that returned an error. -/
def failedReplaces : List Event → List Rule
  | [] => []
  | Event.rulesReplace r _ (some _) :: rest => r :: failedReplaces rest
  | _ :: rest => failedReplaces rest

/-- Source: `NewReply`. -/
def NewReply (rID : Nat) (replyCode : NotificationReplyCode) (data : String) :
    NotificationReply :=
  { Id := rID, Code := replyCode, Data := data }

/-- The reply `sendNotificationReply` builds before handing it to `stream.Send`. -/
def buildReply (nID : Nat) (data : String) (err : Option GoError) : NotificationReply :=
  let reply := NewReply nID NotificationReplyCode.OK data
  match err with
  | some e => { reply with Code := NotificationReplyCode.ERROR, Data := Sprint [Operand.err (some e)] }
  | none => reply

/-- Source: `(*Client).sendNotificationReply`. Returns the new state, the effects and
the function's own return value. -/
def sendNotificationReply (env : Env σ) (s : σ) (nID : Nat) (data : String)
    (err : Option GoError) : σ × List Event × Option GoError :=
  let reply := buildReply nID data err
  match env.streamSend s reply with
  | (s1, some e) => (s1, [Event.send reply], some e)
  | (s1, none) => (s1, [Event.send reply], none)

/-- A handler's final `c.sendNotificationReply(...)` whose result is dropped. -/
def replyAndReturn (env : Env σ) (s : σ) (pre : List Event) (nID : Nat) (data : String)
    (err : Option GoError) : Out σ :=
  let r := sendNotificationReply env s nID data err
  { st := r.1, events := pre ++ r.2.1, panicked := false }

/-- The loop body of `handleActionEnableRule` (`enabled = true`) and of
`handleActionDisableRule` (`enabled = false`): `err` is the variable the loop
overwrites; a `nil` rule from `rule.Deserialize` makes `r.Enabled = ...` panic. -/
def setEnabledLoop (env : Env σ) (enabled : Bool) :
    List ProtoRule → σ → Option GoError → σ × List Event × Option (Option GoError)
  | [], s, err => (s, [], some err)
  | rul :: rest, s, _ =>
    match (env.ruleDeserialize rul).1 with
    | none => (s, [], none)
    | some r0 =>
      let r : Rule := { r0 with Enabled := enabled }
      let saveToDisk : Bool := decide (r.Duration = env.ruleAlways)
      let res := env.rulesReplace s r saveToDisk
      let tail := setEnabledLoop env enabled rest res.1 res.2
      (tail.1, Event.rulesReplace r saveToDisk res.2 :: tail.2.1, tail.2.2)

/-- Source: `(*Client).handleActionEnableRule`. -/
def handleActionEnableRule (env : Env σ) (s : σ) (notif : Notification) : Out σ :=
  match setEnabledLoop env true notif.Rules s none with
  | (s1, evs, none) => { st := s1, events := evs, panicked := true }
  | (s1, evs, some err) => replyAndReturn env s1 evs notif.Id "" err

/-- Source: `(*Client).handleActionDisableRule`. -/
def handleActionDisableRule (env : Env σ) (s : σ) (notif : Notification) : Out σ :=
  match setEnabledLoop env false notif.Rules s none with
  | (s1, evs, none) => { st := s1, events := evs, panicked := true }
  | (s1, evs, some err) => replyAndReturn env s1 evs notif.Id "" err

/-- The loop of `handleActionChangeRule`, threading `rErr`. -/
def changeRuleLoop (env : Env σ) :
    List ProtoRule → σ → Option GoError → σ × List Event × Option GoError
  | [], s, rErr => (s, [], rErr)
  | rul :: rest, s, rErr =>
    match env.ruleDeserialize rul with
    | (none, err) =>
      changeRuleLoop env rest s (some (Errorf "Invalid rule, " (Operand.err err)))
    | (some r, _) =>
      let saveToDisk : Bool := decide (r.Duration = env.ruleAlways)
      let res := env.rulesReplace s r saveToDisk
      let rErr1 : Option GoError :=
        match res.2 with
        | some e => some e
        | none => rErr
      let tail := changeRuleLoop env rest res.1 rErr1
      (tail.1, Event.rulesReplace r saveToDisk res.2 :: tail.2.1, tail.2.2)

/-- Source: `(*Client).handleActionChangeRule`. -/
def handleActionChangeRule (env : Env σ) (s : σ) (notif : Notification) : Out σ :=
  let r := changeRuleLoop env notif.Rules s none
  replyAndReturn env r.1 r.2.1 notif.Id "" r.2.2

/-- Source: `(*Client).handleActionEnableInterception`. -/
def handleActionEnableInterception (env : Env σ) (s : σ) (notif : Notification) : Out σ :=
  let m := env.reconfigureMonitorMethod s env.config
  let pre := [Event.reconfigureMonitorMethod env.config]
  match m.2 with
  | some err =>
    if err.What > env.monitorNoError then
      replyAndReturn env m.1 pre notif.Id "" err.Msg
    else
      let f := env.enableInterception m.1
      replyAndReturn env f.1 (pre ++ [Event.enableInterception]) notif.Id "" f.2
  | none =>
    let f := env.enableInterception m.1
    replyAndReturn env f.1 (pre ++ [Event.enableInterception]) notif.Id "" f.2

/-- Source: `(*Client).handleActionDisableInterception`. -/
def handleActionDisableInterception (env : Env σ) (s : σ) (notif : Notification) : Out σ :=
  let s1 := env.monitorEnd s
  let f := env.disableInterception s1
  replyAndReturn env f.1 [Event.monitorEnd, Event.disableInterception] notif.Id "" f.2

/-- What one iteration of the `select` in the goroutine of `handleActionReloadFw`
observes: an error read from `firewall.ErrorsChan()` together with what
`firewall.ErrChanEmpty()` answers right after, or the 2-second timer firing. -/
inductive DrainEvent where
  | errorReceived (fwerr : String) (chanEmpty : Bool)
  | timeout
deriving DecidableEq, Repr

/-- The goroutine of `handleActionReloadFw`, run over the observations of its `select`:
`errors` is the local accumulator. The result is the state, the effects, and whether the
goroutine returned (it is still in the loop when the observations run out). -/
def drainErrorsLoop (env : Env σ) (nID : Nat) :
    String → List DrainEvent → σ → σ × List Event × Bool
  | _, [], s => (s, [], false)
  | errors, DrainEvent.errorReceived fwerr chanEmpty :: rest, s =>
    let errors1 := Sprint [Operand.str errors, Operand.str fwerr, Operand.str ","]
    if chanEmpty then
      let r := sendNotificationReply env s nID ""
        (some (Errorf "" (Operand.str errors1)))
      (r.1, r.2.1, true)
    else
      drainErrorsLoop env nID errors1 rest s
  | _, DrainEvent.timeout :: _, s =>
    let r := sendNotificationReply env s nID "" none
    (r.1, r.2.1, true)

/-- The goroutine started by `handleActionReloadFw`: `var errors string` starts empty. -/
def drainErrors (env : Env σ) (nID : Nat) (obs : List DrainEvent) (s : σ) :
    σ × List Event × Bool :=
  drainErrorsLoop env nID "" obs s

/-- The errors drained from `firewall.ErrorsChan()` by the observations consumed until
the goroutine returns. -/
def drainedErrors : List DrainEvent → List String
  | [] => []
  | DrainEvent.errorReceived fwerr true :: _ => [fwerr]
  | DrainEvent.errorReceived fwerr false :: rest => fwerr :: drainedErrors rest
  | DrainEvent.timeout :: _ => []

/-- What `rules.Replace` does when it is called on the given rules in order, each call
on the state the previous call left and with the save flag `Duration == rule.Always`:
the final state and the value every call returned. -/
def replaceRun (env : Env σ) : List Rule → σ → σ × List (Option GoError)
  | [], s => (s, [])
  | r :: rs, s =>
    let res := env.rulesReplace s r (decide (r.Duration = env.ruleAlways))
    let tail := replaceRun env rs res.1
    (tail.1, res.2 :: tail.2)

/-! # A concrete set of collaborators, for evaluating the handlers -/

/-- Unsigned decimal parsing of a digit list, most significant digit first. -/
def parseDigits : List Char → Nat → Option Nat
  | [], acc => some acc
  | c :: cs, acc =>
    if c.isDigit then parseDigits cs (acc * 10 + (c.toNat - 48)) else none

/-- A stand-in for `strconv.Atoi` on unsigned decimal input. -/
def sampleAtoi (p : String) : Except GoError Int :=
  match p.data with
  | [] => Except.error ⟨"strconv.Atoi: empty input"⟩
  | c :: cs =>
    match parseDigits (c :: cs) 0 with
    | some n => Except.ok (Int.ofNat n)
    | none => Except.error ⟨"strconv.Atoi: not a number"⟩

/-- Collaborators that always succeed, except that a rule without payload does not
deserialize and the process monitor reports `sampleMonitorResult`. The state counts
the calls that change something. -/
def sampleEnv (sampleMonitorResult : Option MonitorError) : Env Nat where
  streamSend := fun s _ => (s, none)
  ruleDeserialize := fun rul =>
    if rul.Payload = "" then (none, some ⟨"invalid operator"⟩)
    else (some ⟨rul.Name, false, rul.Payload, ""⟩, none)
  rulesReplace := fun s _ _ => (s + 1, none)
  ruleAlways := "always"
  jsonUnmarshal := fun d =>
    if d = "stop pid 123" then
      Except.ok ⟨"pid-monitor", JVal.obj [("pid", JVal.str "123")]⟩
    else if d = "stop pid x" then
      Except.ok ⟨"pid-monitor", JVal.obj [("pid", JVal.str "x")]⟩
    else Except.error ⟨"unexpected end of JSON input"⟩
  atoi := sampleAtoi
  removeTask := fun s _ => s + 1
  pidmonitorName := "pid-monitor"
  nodemonitorName := "node-monitor"
  socketsmonitorName := "sockets-monitor"
  config := ⟨"ebpf", "", ""⟩
  reconfigureMonitorMethod := fun s _ => (s + 1, sampleMonitorResult)
  monitorNoError := 0
  monitorEnd := fun s => s + 1
  enableInterception := fun s => (s + 1, none)
  disableInterception := fun s => (s + 1, none)
  fwDeserialize := fun raw => if raw = "" then ("", some ⟨"empty ruleset"⟩) else (raw, none)
  saveConfiguration := fun s _ => (s + 1, none)

/-- An ENABLE_RULE / DISABLE_RULE notification whose first rule has no operator. -/
def sampleRulesNotification : Notification :=
  { Id := 7, Data := "", SysFirewall := "",
    Rules := [⟨"broken", ""⟩, ⟨"allow-dns", "always"⟩] }

/-- The collaborators of `sampleEnv` with a rule store whose `Replace` always fails. -/
def diskFullEnv : Env Nat :=
  { sampleEnv none with rulesReplace := fun s _ _ => (s + 1, some ⟨"disk full"⟩) }

/-- A CHANGE_RULE notification with one rule that deserializes. -/
def sampleChangeRule : Notification :=
  { Id := 11, Data := "", SysFirewall := "", Rules := [⟨"allow-dns", "always"⟩] }

/-- A TASK_STOP notification for the pid monitor of process 123. -/
def sampleTaskStop : Notification :=
  { Id := 9, Data := "stop pid 123", SysFirewall := "", Rules := [] }

/-! # The system firewall reconciliation engine

`daemon/firewall/nftables/system_test.go` drives an engine whose code is not part of the
sources at hand; the definitions of this section follow sections 3 and 4 of the
specification. -/

/-- Modelled from the spec: the verdict kinds of section 4.2 (the engine's expression
package is missing). -/
inductive VerdictKind where
  | Accept
  | Drop
  | Jump (target : String)
  | Goto (target : String)
  | Continue
  | Return
deriving DecidableEq, Repr

/-- Modelled from the spec: the Expression variants of section 4.2 (the engine's
expression package is missing). -/
inductive Expression where
  | AddressMatch (family : String) (addr : String) (negate : Bool)
  | PortMatch (proto : String) (port : Nat) (negate : Bool)
  | InterfaceMatch (name : String) (direction : String)
  | MarkMatch (value : Nat) (mask : Nat)
  | Counter
  | Log (label : String)
  | Verdict (kind : VerdictKind)
deriving DecidableEq, Repr

/-- Modelled from the spec: a rule specification of a Ruleset Description (section 3),
an ordered sequence of expressions; the engine's configuration types are missing. -/
structure RuleSpec where
  exprs : List Expression
deriving DecidableEq, Repr

/-- Modelled from the spec: the hook binding of a base chain (section 3). -/
structure BaseHook where
  hook : String
  priority : Int
  policy : String
deriving DecidableEq, Repr

/-- Modelled from the spec: a chain of a Ruleset Description (section 3); `base` is
absent for a regular chain. -/
structure ChainSpec where
  name : String
  base : Option BaseHook
  rules : List RuleSpec
deriving DecidableEq, Repr

/-- Modelled from the spec: a table of a Ruleset Description with the family it is
declared under (section 3). -/
structure TableSpec where
  family : String
  name : String
  chains : List ChainSpec
deriving DecidableEq, Repr

/-- Modelled from the spec: the Ruleset Description of section 3, the ordered mapping
Family → Table → Chain → rules, as the list of its tables. -/
abbrev RulesetDescription := List TableSpec

/-- Modelled from the spec: the constraint a description violates (section 4.3);
`duplicateTable` is the mapping's own requirement that a key occurs once. -/
inductive ValidationError where
  | duplicateTable
  | unsupportedFamily
  | duplicateChain
  | invalidBaseChain
  | missingTarget
deriving DecidableEq, Repr

/-- Modelled from the spec: the supported Family enumeration (sections 3 and 4.3). -/
def supportedFamilies : List String := ["inet", "ip", "ip6", "bridge", "netdev", "arp"]

/-- Modelled from the spec: the kernel hooks a base chain can bind to (section 3). -/
def supportedHooks : List String :=
  ["prerouting", "input", "forward", "output", "postrouting", "ingress"]

/-- Modelled from the spec: the default policies of a base chain (section 3). -/
def supportedPolicies : List String := ["accept", "drop"]

/-- Modelled from the spec: the jump/goto targets a rule refers to (section 4.3). -/
def jumpTargets : List Expression → List String
  | [] => []
  | Expression.Verdict (VerdictKind.Jump t) :: rest => t :: jumpTargets rest
  | Expression.Verdict (VerdictKind.Goto t) :: rest => t :: jumpTargets rest
  | _ :: rest => jumpTargets rest

/-- Modelled from the spec: table keys (family, name) occur once in the mapping. -/
def tablesUnique (d : RulesetDescription) : Prop :=
  (d.map (fun t => (t.family, t.name))).Nodup

/-- Modelled from the spec: "every chain has a unique name within its table". -/
def chainsUnique (t : TableSpec) : Prop :=
  (t.chains.map (fun c => c.name)).Nodup

/-- Modelled from the spec: "base chains declare a valid hook+priority+policy". -/
def baseChainValid (c : ChainSpec) : Prop :=
  match c.base with
  | none => True
  | some b => b.hook ∈ supportedHooks ∧ b.policy ∈ supportedPolicies

/-- Modelled from the spec: "every referenced jump/goto target chain exists within the
same table". -/
def targetsExist (t : TableSpec) : Prop :=
  ∀ c ∈ t.chains, ∀ r ∈ c.rules, ∀ target ∈ jumpTargets r.exprs,
    target ∈ t.chains.map (fun c => c.name)

instance (d : RulesetDescription) : Decidable (tablesUnique d) := by
  unfold tablesUnique
  infer_instance

instance (t : TableSpec) : Decidable (chainsUnique t) := by
  unfold chainsUnique
  infer_instance

instance (c : ChainSpec) : Decidable (baseChainValid c) := by
  unfold baseChainValid
  cases c.base <;> infer_instance

instance (t : TableSpec) : Decidable (targetsExist t) := by
  unfold targetsExist
  infer_instance

/-- Modelled from the spec: the validator of section 4.3 (missing from the sources);
it returns the violated constraint and never loads partially. -/
def validate (d : RulesetDescription) : Except ValidationError Unit :=
  if ¬ tablesUnique d then Except.error ValidationError.duplicateTable
  else if ¬ (∀ t ∈ d, t.family ∈ supportedFamilies) then
    Except.error ValidationError.unsupportedFamily
  else if ¬ (∀ t ∈ d, chainsUnique t) then Except.error ValidationError.duplicateChain
  else if ¬ (∀ t ∈ d, ∀ c ∈ t.chains, baseChainValid c) then
    Except.error ValidationError.invalidBaseChain
  else if ¬ (∀ t ∈ d, targetsExist t) then Except.error ValidationError.missingTarget
  else Except.ok ()

/-- Modelled from the spec: a kernel rule with its Ownership Tag (section 3). -/
structure KRule where
  exprs : List Expression
  tagged : Bool
deriving DecidableEq, Repr

/-- Modelled from the spec: a kernel chain with its Ownership Tag (section 3). -/
structure KChain where
  name : String
  base : Option BaseHook
  tagged : Bool
  rules : List KRule
deriving DecidableEq, Repr

/-- Modelled from the spec: a kernel table (section 3). -/
structure KTable where
  family : String
  name : String
  chains : List KChain
deriving DecidableEq, Repr

/-- Modelled from the spec: the packet-filtering state behind the Kernel Transport
connection (section 4.1), the tables of one network namespace. -/
abbrev Kernel := List KTable

/-- Modelled from the spec: the Operation variants of section 4.1. -/
inductive Operation where
  | AddTable (family : String) (name : String)
  | AddChain (family : String) (table : String) (chain : KChain)
  | AddRule (family : String) (table : String) (chain : String) (rule : KRule)
  | DeleteTable (family : String) (name : String)
  | DeleteChain (family : String) (table : String) (chain : String)
  | DeleteRule (family : String) (table : String) (chain : String) (rule : KRule)
  | Flush (family : String) (table : String) (chain : String)
deriving DecidableEq, Repr

/-- Key test of a kernel table. -/
def isTable (family name : String) (t : KTable) : Bool :=
  decide (t.family = family ∧ t.name = name)

/-- Key test of a kernel chain. -/
def isChain (name : String) (c : KChain) : Bool :=
  decide (c.name = name)

/-- Rewrites the first element that passes `p`; fails when there is none or when `f`
fails on it. -/
def updFirst {α : Type} (p : α → Bool) (f : α → Option α) : List α → Option (List α)
  | [] => none
  | x :: xs =>
    if p x then (f x).map (fun y => y :: xs)
    else (updFirst p f xs).map (fun ys => x :: ys)

/-- Rewrites a chain of a table of the kernel. -/
def updChain (family table chain : String) (f : KChain → Option KChain) (k : Kernel) :
    Option Kernel :=
  updFirst (isTable family table)
    (fun t => (updFirst (isChain chain) f t.chains).map
      (fun cs => { t with chains := cs })) k

/-- Modelled from the spec: what the kernel does with one Operation of a batch
(section 4.1; the Kernel Transport is missing from the sources); `none` is a
KernelReject (naming conflict, missing or busy object). New objects go to the end of
their container. -/
def applyOp (k : Kernel) : Operation → Option Kernel
  | Operation.AddTable family name =>
    if k.any (isTable family name) then none
    else some (k ++ [{ family := family, name := name, chains := [] }])
  | Operation.AddChain family table chain =>
    updFirst (isTable family table)
      (fun t => if t.chains.any (isChain chain.name) then none
        else some { t with chains := t.chains ++ [chain] }) k
  | Operation.AddRule family table chain rule =>
    updChain family table chain (fun c => some { c with rules := c.rules ++ [rule] }) k
  | Operation.DeleteTable family name =>
    if k.any (isTable family name) then some (k.filter (fun t => !isTable family name t))
    else none
  | Operation.DeleteChain family table chain =>
    updFirst (isTable family table)
      (fun t =>
        match t.chains.find? (isChain chain) with
        | none => none
        | some c =>
          if c.rules = [] then
            some { t with chains := t.chains.filter (fun c => !isChain chain c) }
          else none) k
  | Operation.DeleteRule family table chain rule =>
    updChain family table chain
      (fun c => if rule ∈ c.rules then some { c with rules := c.rules.erase rule }
        else none) k
  | Operation.Flush family table chain =>
    updChain family table chain (fun c => some { c with rules := [] }) k

/-- Modelled from the spec: `Batch(ops)` of section 4.1 (the Kernel Transport is
missing from the sources), a single atomic batch: every operation commits or none
does. -/
def Batch : Kernel → List Operation → Option Kernel
  | k, [] => some k
  | k, op :: ops =>
    match applyOp k op with
    | none => none
    | some k1 => Batch k1 ops

/-- The (family, name) keys of the tables of a kernel state, in order. -/
def tableKeys (k : Kernel) : List (String × String) :=
  k.map (fun t => (t.family, t.name))

/-- Lookup of a table in the kernel. -/
def findTable (k : Kernel) (family name : String) : Option KTable :=
  k.find? (isTable family name)

/-- Lookup of a chain in the kernel. -/
def findChain (k : Kernel) (family table chain : String) : Option KChain :=
  match findTable k family table with
  | none => none
  | some t => t.chains.find? (isChain chain)

/-- Modelled from the spec: `ListRules(chain)` of section 4.1, which the test helper
`getRulesList` (missing from the sources) wraps; a chain that does not exist lists no
rules. -/
def ListRules (k : Kernel) (family table chain : String) : List KRule :=
  match findChain k family table chain with
  | none => []
  | some c => c.rules

/-- Modelled from the spec: the states of section 4.4. -/
inductive ObjState where
  | Absent
  | Declared
  | Applied
  | Tombstoned
deriving DecidableEq, Repr

/-- Modelled from the spec: the errors of sections 4.3 and 7 a load can return;
`preloadVeto` is the failing PreloadCallback of section 4.5. -/
inductive LoadError where
  | parseError
  | validationError (v : ValidationError)
  | preloadVeto
deriving DecidableEq, Repr

/-- Modelled from the spec: the error of the add and delete passes (section 7). -/
inductive ReconcileError where
  | PartialKernelReject
deriving DecidableEq, Repr

/-- Modelled from the spec: the Reconciliation Engine of section 4.4 (its code is
missing): the kernel state its connection owns, the configured path, the active
description, the state of the managed set and the two callbacks of section 4.5. -/
structure Engine where
  kernel : Kernel
  configFile : String
  active : RulesetDescription
  state : ObjState
  preloadCallback : RulesetDescription → Bool
  reloadCallback : RulesetDescription → Bool

/-- Modelled from the spec: `SetConfigFile(path)` of section 4.4 (the engine's code is
missing). -/
def SetConfigFile (path : String) (e : Engine) : Engine :=
  { e with configFile := path }

/-- Modelled from the spec: `LoadDiskConfiguration(forceReload)` of section 4.4 (the
engine's code is missing), with `disk` giving the parsed document at a path (`none`:
unreadable or malformed). On success the active description is replaced, on failure it
is left untouched and the error is returned. A failing PreloadCallback aborts the load; the ReloadCallback runs after the
commit and its failure is only logged. The load contract gives `forceReload` no effect
on the description or the kernel. -/
def LoadDiskConfiguration (disk : String → Option RulesetDescription) (forceReload : Bool)
    (e : Engine) : Engine × Except LoadError Unit :=
  match disk e.configFile with
  | none => (e, Except.error LoadError.parseError)
  | some d =>
    match validate d with
    | Except.error v => (e, Except.error (LoadError.validationError v))
    | Except.ok _ =>
      if e.preloadCallback d = false then (e, Except.error LoadError.preloadVeto)
      else
        let _reloadOk := e.reloadCallback d
        ({ e with active := d, state := ObjState.Declared }, Except.ok ())

/-- The kernel rule the engine creates for a rule specification: tagged. -/
def mkRule (r : RuleSpec) : KRule :=
  { exprs := r.exprs, tagged := true }

/-- The kernel chain the engine creates for a declared chain, with all its rules. -/
def mkChain (c : ChainSpec) : KChain :=
  { name := c.name, base := c.base, tagged := true, rules := c.rules.map mkRule }

/-- The kernel table of a declared table once all its chains and rules are created. -/
def mkTable (t : TableSpec) : KTable :=
  { family := t.family, name := t.name, chains := t.chains.map mkChain }

/-- The kernel table of a declared table without any chain. -/
def bareTable (t : TableSpec) : KTable :=
  { family := t.family, name := t.name, chains := [] }

/-- Modelled from the spec: the AddRule operations of one chain, in declared order.
Without `force`, a rule whose identical tagged copy is at the same position of the
kernel chain is skipped (section 4.4). -/
def ruleOps (force : Bool) (existing : List KRule) (family table chain : String) :
    Nat → List RuleSpec → List Operation
  | _, [] => []
  | i, r :: rs =>
    (if force = false ∧ existing.get? i = some (mkRule r) then []
      else [Operation.AddRule family table chain (mkRule r)])
      ++ ruleOps force existing family table chain (i + 1) rs

/-- Modelled from the spec: the operations of one declared chain: AddChain with the
ownership tag when the chain is not in the kernel, then its rules (section 4.4). -/
def chainOps (force : Bool) (k : Kernel) (t : TableSpec) (c : ChainSpec) : List Operation :=
  match findChain k t.family t.name c.name with
  | none =>
    Operation.AddChain t.family t.name
        { name := c.name, base := c.base, tagged := true, rules := [] }
      :: ruleOps force [] t.family t.name c.name 0 c.rules
  | some kc => ruleOps force kc.rules t.family t.name c.name 0 c.rules

/-- The operations of the chains of a declared table, in declared order. -/
def chainsOps (force : Bool) (k : Kernel) (t : TableSpec) : List ChainSpec → List Operation
  | [] => []
  | c :: cs => chainOps force k t c ++ chainsOps force k t cs

/-- Modelled from the spec: the operations of one declared table: AddTable when the
table is not in the kernel, then its chains (section 4.4). -/
def tableOps (force : Bool) (k : Kernel) (t : TableSpec) : List Operation :=
  (match findTable k t.family t.name with
    | none => [Operation.AddTable t.family t.name]
    | some _ => [])
    ++ chainsOps force k t t.chains

/-- Modelled from the spec: the batch `AddSystemRules` builds by walking the loaded
description (section 4.4). -/
def addOps (force : Bool) (k : Kernel) : RulesetDescription → List Operation
  | [] => []
  | t :: ts => tableOps force k t ++ addOps force k ts

/-- Modelled from the spec: `AddSystemRules(force, dryRun)` of section 4.4 (the
engine's code is missing). The result carries the batch (what changes, or would change with `dryRun`); a rejected batch leaves
the engine as it was. -/
def AddSystemRules (force dryRun : Bool) (e : Engine) :
    Engine × Except ReconcileError (List Operation) :=
  let ops := addOps force e.kernel e.active
  if dryRun then (e, Except.ok ops)
  else
    match Batch e.kernel ops with
    | none => (e, Except.error ReconcileError.PartialKernelReject)
    | some k1 => ({ e with kernel := k1, state := ObjState.Applied }, Except.ok ops)

/-- Modelled from the spec: DeleteRule for every tagged rule of a kernel chain
(section 4.4). -/
def deleteRuleOps (family table chain : String) : List KRule → List Operation
  | [] => []
  | r :: rs =>
    (if r.tagged then [Operation.DeleteRule family table chain r] else [])
      ++ deleteRuleOps family table chain rs

/-- Modelled from the spec: the delete operations of one kernel chain: its tagged
rules, and with `purgeChains` the chain itself when it is tagged and holds no untagged
rule (section 4.4). -/
def deleteChainOps (purgeChains : Bool) (family table : String) (c : KChain) :
    List Operation :=
  deleteRuleOps family table c.name c.rules
    ++ (if purgeChains = true ∧ c.tagged = true ∧ c.rules.all (fun r => r.tagged) = true
        then [Operation.DeleteChain family table c.name] else [])

/-- The delete operations of the chains of a kernel table. -/
def deleteChainsOps (purgeChains : Bool) (family table : String) :
    List KChain → List Operation
  | [] => []
  | c :: cs =>
    deleteChainOps purgeChains family table c ++ deleteChainsOps purgeChains family table cs

/-- Modelled from the spec: the batch of a delete pass; no DeleteTable is ever queued
(section 4.4). -/
def deleteOps (purgeChains : Bool) : Kernel → List Operation
  | [] => []
  | t :: ts => deleteChainsOps purgeChains t.family t.name t.chains ++ deleteOps purgeChains ts

/-- Modelled from the spec: `DeleteSystemRules(force, dryRun, purgeChains)` of section
4.4 (the engine's code is missing). Without `force` an already tombstoned set is left
alone. -/
def DeleteSystemRules (force dryRun purgeChains : Bool) (e : Engine) :
    Engine × Except ReconcileError (List Operation) :=
  if e.state = ObjState.Tombstoned ∧ force = false then (e, Except.ok [])
  else
    let ops := deleteOps purgeChains e.kernel
    if dryRun then (e, Except.ok ops)
    else
      match Batch e.kernel ops with
      | none => (e, Except.error ReconcileError.PartialKernelReject)
      | some k1 => ({ e with kernel := k1, state := ObjState.Tombstoned }, Except.ok ops)

/-- Modelled from the spec: `GetTable(name, family)` of section 4.4 (the engine's code
is missing), a read-through lookup against the kernel. -/
def GetTable (e : Engine) (name family : String) : Option KTable :=
  findTable e.kernel family name

/-- The description of the test fixture `testdata/test-sysfw-conf.json` as the test and
the spec describe it: family inet, table opensnitch, chains filter_input (1 rule),
mangle_output (3 rules) and mangle_forward (1 rule). -/
def fixtureDescription : RulesetDescription :=
  [{ family := "inet", name := "opensnitch",
     chains := [
       { name := "filter_input", base := some ⟨"input", 0, "accept"⟩,
         rules := [⟨[Expression.Counter, Expression.Verdict VerdictKind.Accept]⟩] },
       { name := "mangle_output", base := some ⟨"output", 0, "accept"⟩,
         rules := [⟨[Expression.PortMatch "tcp" 53 false,
                     Expression.Verdict VerdictKind.Accept]⟩,
                   ⟨[Expression.MarkMatch 1 255, Expression.Verdict VerdictKind.Return]⟩,
                   ⟨[Expression.Log "out", Expression.Verdict VerdictKind.Drop]⟩] },
       { name := "mangle_forward", base := some ⟨"forward", 0, "accept"⟩,
         rules := [⟨[Expression.InterfaceMatch "eth0" "in",
                     Expression.Verdict VerdictKind.Drop]⟩] }] }]

/-- A filesystem holding the fixture at the path the test configures. -/
def fixtureDisk (path : String) : Option RulesetDescription :=
  if path = "./testdata/test-sysfw-conf.json" then some fixtureDescription else none

/-- A fresh engine on the given kernel state, with callbacks that accept, set to the
configuration path of the test. -/
def newEngine (k : Kernel) : Engine :=
  SetConfigFile "./testdata/test-sysfw-conf.json"
    { kernel := k, configFile := "", active := [], state := ObjState.Absent,
      preloadCallback := fun _ => true, reloadCallback := fun _ => true }

/-! # Theorems -/

theorem str_empty_append (s : String) : "" ++ s = s := by
  apply String.ext
  simp

theorem str_append_empty (s : String) : s ++ "" = s := by
  apply String.ext
  simp

theorem Sprint_single_err (e : GoError) : Sprint [Operand.err (some e)] = e.text := by
  simp [Sprint, doPrint, Operand.render, str_empty_append, str_append_empty]

theorem buildReply_none (nID : Nat) (data : String) :
    buildReply nID data none = ⟨nID, NotificationReplyCode.OK, data⟩ := rfl

theorem buildReply_some (nID : Nat) (data : String) (e : GoError) :
    buildReply nID data (some e) = ⟨nID, NotificationReplyCode.ERROR, e.text⟩ := by
  simp [buildReply, NewReply, Sprint_single_err]

theorem sendNotificationReply_events (env : Env σ) (s : σ) (nID : Nat) (data : String)
    (err : Option GoError) :
    (sendNotificationReply env s nID data err).2.1 = [Event.send (buildReply nID data err)] := by
  unfold sendNotificationReply
  rcases h : env.streamSend s (buildReply nID data err) with ⟨s1, _ | e⟩ <;> simp [h]

theorem replyAndReturn_events (env : Env σ) (s : σ) (pre : List Event) (nID : Nat)
    (data : String) (err : Option GoError) :
    (replyAndReturn env s pre nID data err).events
      = pre ++ [Event.send (buildReply nID data err)] := by
  simp [replyAndReturn, sendNotificationReply_events]

theorem replyAndReturn_panicked (env : Env σ) (s : σ) (pre : List Event) (nID : Nat)
    (data : String) (err : Option GoError) :
    (replyAndReturn env s pre nID data err).panicked = false := rfl

/-- C1: `sendNotificationReply` hands exactly one reply to `stream.Send`; its Id is
the request id; with a nil error it has Code OK and the given data, with a non-nil error
it has Code ERROR and the error's rendering as Data, the data argument being dropped. -/
theorem sendNotificationReply_one_reply (env : Env σ) (s : σ) (nID : Nat) (data : String)
    (err : Option GoError) :
    ∃ reply : NotificationReply,
      (sendNotificationReply env s nID data err).2.1 = [Event.send reply] ∧
      reply.Id = nID ∧
      reply = (match err with
        | none => NewReply nID NotificationReplyCode.OK data
        | some e => NewReply nID NotificationReplyCode.ERROR e.text) := by
  refine ⟨buildReply nID data err, sendNotificationReply_events env s nID data err, ?_, ?_⟩
  · cases err <;> simp [buildReply_none, buildReply_some]
  · cases err <;> simp [buildReply_none, buildReply_some, NewReply]

theorem sentReplies_append (a b : List Event) :
    sentReplies (a ++ b) = sentReplies a ++ sentReplies b := by
  induction a with
  | nil => rfl
  | cons e rest ih => cases e <;> simp [sentReplies, ih]

theorem replaceCalls_append (a b : List Event) :
    replaceCalls (a ++ b) = replaceCalls a ++ replaceCalls b := by
  induction a with
  | nil => rfl
  | cons e rest ih => cases e <;> simp [replaceCalls, ih]

theorem failedReplaces_append (a b : List Event) :
    failedReplaces (a ++ b) = failedReplaces a ++ failedReplaces b := by
  induction a with
  | nil => rfl
  | cons e rest ih =>
    cases e with
    | rulesReplace r b res => cases res <;> simp [failedReplaces, ih]
    | _ => simp [failedReplaces, ih]

theorem changeRuleLoop_sent (env : Env σ) (rules : List ProtoRule) (s : σ)
    (rErr : Option GoError) :
    sentReplies (changeRuleLoop env rules s rErr).2.1 = [] := by
  induction rules generalizing s rErr with
  | nil => rfl
  | cons rul rest ih =>
    unfold changeRuleLoop
    rcases h : env.ruleDeserialize rul with ⟨_ | r, err⟩
    · simpa using ih _ _
    · simpa [sentReplies] using ih _ _

theorem changeRuleLoop_calls (env : Env σ) (rules : List ProtoRule) (s : σ)
    (rErr : Option GoError) :
    replaceCalls (changeRuleLoop env rules s rErr).2.1
      = (rules.filterMap (fun rul => (env.ruleDeserialize rul).1)).map
          (fun r => (r, decide (r.Duration = env.ruleAlways))) := by
  induction rules generalizing s rErr with
  | nil => rfl
  | cons rul rest ih =>
    unfold changeRuleLoop
    rcases h : env.ruleDeserialize rul with ⟨_ | r, err⟩
    · simpa [List.filterMap_cons, h] using ih _ _
    · simpa [List.filterMap_cons, h, replaceCalls] using ih _ _

theorem changeRuleLoop_err (env : Env σ) (rules : List ProtoRule) (s : σ)
    (rErr : Option GoError) :
    (changeRuleLoop env rules s rErr).2.2 ≠ none ↔
      (rErr ≠ none ∨ (∃ rul ∈ rules, (env.ruleDeserialize rul).1 = none) ∨
        failedReplaces (changeRuleLoop env rules s rErr).2.1 ≠ []) := by
  induction rules generalizing s rErr with
  | nil => simp [changeRuleLoop, failedReplaces]
  | cons rul rest ih =>
    unfold changeRuleLoop
    rcases h : env.ruleDeserialize rul with ⟨_ | r, err⟩
    · simp only [h]
      rw [ih]
      simp [h]
    · simp only [h]
      rw [ih]
      rcases h2 : (env.rulesReplace s r (decide (r.Duration = env.ruleAlways))).2 with _ | e
      · simp [h, h2, failedReplaces]
      · simp [h, h2, failedReplaces]

theorem changeRuleLoop_run (env : Env σ) (rules : List ProtoRule) (s : σ)
    (rErr : Option GoError) :
    (changeRuleLoop env rules s rErr).1
      = (replaceRun env (rules.filterMap (fun rul => (env.ruleDeserialize rul).1)) s).1 ∧
    (changeRuleLoop env rules s rErr).2.1
      = List.zipWith
          (fun r res => Event.rulesReplace r (decide (r.Duration = env.ruleAlways)) res)
          (rules.filterMap (fun rul => (env.ruleDeserialize rul).1))
          (replaceRun env (rules.filterMap (fun rul => (env.ruleDeserialize rul).1)) s).2 := by
  induction rules generalizing s rErr with
  | nil => simp [changeRuleLoop, replaceRun]
  | cons rul rest ih =>
    unfold changeRuleLoop
    rcases h : env.ruleDeserialize rul with ⟨_ | r, err⟩
    · simpa [List.filterMap_cons, h] using ih _ _
    · have hind := ih (env.rulesReplace s r (decide (r.Duration = env.ruleAlways))).1
        (match (env.rulesReplace s r (decide (r.Duration = env.ruleAlways))).2 with
          | some e => some e
          | none => rErr)
      simp only [List.filterMap_cons, h, replaceRun, List.zipWith_cons_cons]
      exact ⟨hind.1, by rw [hind.2]⟩

theorem changeRuleLoop_err_run (env : Env σ) (rules : List ProtoRule) (s : σ)
    (rErr : Option GoError) :
    (changeRuleLoop env rules s rErr).2.2 ≠ none ↔
      (rErr ≠ none ∨ (∃ rul ∈ rules, (env.ruleDeserialize rul).1 = none) ∨
        ∃ res ∈ (replaceRun env
          (rules.filterMap (fun rul => (env.ruleDeserialize rul).1)) s).2, res ≠ none) := by
  induction rules generalizing s rErr with
  | nil => simp [changeRuleLoop, replaceRun]
  | cons rul rest ih =>
    unfold changeRuleLoop
    rcases h : env.ruleDeserialize rul with ⟨_ | r, err⟩
    · simp only [h]
      rw [ih]
      simp [List.filterMap_cons, h]
    · simp only [h]
      rw [ih]
      rcases h2 : (env.rulesReplace s r (decide (r.Duration = env.ruleAlways))).2 with _ | e
      · simp [List.filterMap_cons, h, h2, replaceRun]
      · simp [List.filterMap_cons, h, h2, replaceRun]

theorem sendNotificationReply_state (env : Env σ) (s : σ) (nID : Nat) (data : String)
    (err : Option GoError) :
    (sendNotificationReply env s nID data err).1
      = (env.streamSend s (buildReply nID data err)).1 := by
  unfold sendNotificationReply
  rcases h : env.streamSend s (buildReply nID data err) with ⟨s1, _ | e⟩ <;> simp [h]

/-- C10: `handleActionChangeRule` goes through the whole rule list without
panicking. With `rs` the rules of the notification that did not deserialize to nil,
its effects are one `rules.Replace` call per rule of `rs`, in order, each returning what
`rules.Replace` returns on the state the previous call left, followed by exactly one
reply; the reply has the notification id, and its Code is ERROR if and only if some rule
deserialized to nil or one of these `Replace` calls returned an error, and OK otherwise;
with an empty rule list the reply is OK. -/
theorem handleActionChangeRule_reply (env : Env σ) (s : σ) (notif : Notification) :
    (handleActionChangeRule env s notif).panicked = false ∧
    replaceCalls (handleActionChangeRule env s notif).events
      = (notif.Rules.filterMap (fun rul => (env.ruleDeserialize rul).1)).map
          (fun r => (r, decide (r.Duration = env.ruleAlways))) ∧
    (∃ reply : NotificationReply,
      (handleActionChangeRule env s notif).events
        = List.zipWith
            (fun r res => Event.rulesReplace r (decide (r.Duration = env.ruleAlways)) res)
            (notif.Rules.filterMap (fun rul => (env.ruleDeserialize rul).1))
            (replaceRun env
              (notif.Rules.filterMap (fun rul => (env.ruleDeserialize rul).1)) s).2
          ++ [Event.send reply] ∧
      (handleActionChangeRule env s notif).st
        = (env.streamSend (replaceRun env
            (notif.Rules.filterMap (fun rul => (env.ruleDeserialize rul).1)) s).1 reply).1 ∧
      sentReplies (handleActionChangeRule env s notif).events = [reply] ∧
      reply.Id = notif.Id ∧
      (reply.Code = NotificationReplyCode.ERROR ↔
        ((∃ rul ∈ notif.Rules, (env.ruleDeserialize rul).1 = none) ∨
          ∃ res ∈ (replaceRun env
            (notif.Rules.filterMap (fun rul => (env.ruleDeserialize rul).1)) s).2,
            res ≠ none)) ∧
      (reply.Code = NotificationReplyCode.OK ↔
        ¬ ((∃ rul ∈ notif.Rules, (env.ruleDeserialize rul).1 = none) ∨
          ∃ res ∈ (replaceRun env
            (notif.Rules.filterMap (fun rul => (env.ruleDeserialize rul).1)) s).2,
            res ≠ none)) ∧
      (reply.Code = NotificationReplyCode.ERROR ↔
        ((∃ rul ∈ notif.Rules, (env.ruleDeserialize rul).1 = none) ∨
          failedReplaces (handleActionChangeRule env s notif).events ≠ [])) ∧
      (reply.Code = NotificationReplyCode.OK ↔
        ¬ ((∃ rul ∈ notif.Rules, (env.ruleDeserialize rul).1 = none) ∨
          failedReplaces (handleActionChangeRule env s notif).events ≠ []))) ∧
    sentReplies (handleActionChangeRule env s { notif with Rules := [] }).events
      = [NewReply notif.Id NotificationReplyCode.OK ""] := by
  have hev : (handleActionChangeRule env s notif).events
      = (changeRuleLoop env notif.Rules s none).2.1
        ++ [Event.send (buildReply notif.Id "" (changeRuleLoop env notif.Rules s none).2.2)] := by
    simp [handleActionChangeRule, replyAndReturn_events]
  have hst : (handleActionChangeRule env s notif).st
      = (env.streamSend (changeRuleLoop env notif.Rules s none).1
          (buildReply notif.Id "" (changeRuleLoop env notif.Rules s none).2.2)).1 := by
    simp [handleActionChangeRule, replyAndReturn, sendNotificationReply_state]
  have hrun := changeRuleLoop_run env notif.Rules s none
  have herr := changeRuleLoop_err env notif.Rules s none
  have herr2 := changeRuleLoop_err_run env notif.Rules s none
  refine ⟨rfl, ?_, ?_, ?_⟩
  · rw [hev, replaceCalls_append, changeRuleLoop_calls]
    simp [replaceCalls]
  · refine ⟨buildReply notif.Id "" (changeRuleLoop env notif.Rules s none).2.2,
      ?_, ?_, ?_, ?_, ?_, ?_, ?_, ?_⟩
    · rw [hev, hrun.2]
    · rw [hst, hrun.1]
    · rw [hev, sentReplies_append, changeRuleLoop_sent]
      simp [sentReplies]
    · cases (changeRuleLoop env notif.Rules s none).2.2 <;>
        simp [buildReply_none, buildReply_some]
    · rcases h : (changeRuleLoop env notif.Rules s none).2.2 with _ | e
      · rw [h] at herr2
        simp only [ne_eq, not_true_eq_false, false_or, false_iff] at herr2
        simp only [buildReply_none]
        constructor
        · intro hc
          cases hc
        · intro hc
          exact absurd hc herr2
      · rw [h] at herr2
        simp only [ne_eq, not_true_eq_false, false_or] at herr2
        simp only [buildReply_some, true_iff]
        exact herr2.mp (by simp)
    · rcases h : (changeRuleLoop env notif.Rules s none).2.2 with _ | e
      · rw [h] at herr2
        simp only [ne_eq, not_true_eq_false, false_or, false_iff] at herr2
        simp only [buildReply_none, true_iff]
        exact herr2
      · rw [h] at herr2
        simp only [ne_eq, not_true_eq_false, false_or] at herr2
        simp only [buildReply_some]
        constructor
        · intro hc
          cases hc
        · intro hc
          exact absurd (herr2.mp (by simp)) hc
    · rw [hev, failedReplaces_append]
      simp only [failedReplaces, List.append_nil]
      rcases h : (changeRuleLoop env notif.Rules s none).2.2 with _ | e
      · rw [h] at herr
        simp only [ne_eq, not_true_eq_false, false_or, false_iff] at herr
        simp [buildReply_none, herr]
      · rw [h] at herr
        simp only [ne_eq, not_true_eq_false, false_or] at herr
        simp only [buildReply_some, true_iff]
        exact herr.mp (by simp)
    · rw [hev, failedReplaces_append]
      simp only [failedReplaces, List.append_nil]
      rcases h : (changeRuleLoop env notif.Rules s none).2.2 with _ | e
      · rw [h] at herr
        simp only [ne_eq, not_true_eq_false, false_or, false_iff] at herr
        simp [buildReply_none, herr]
      · rw [h] at herr
        simp only [ne_eq, not_true_eq_false, false_or] at herr
        simp only [buildReply_some]
        have := herr.mp (by simp)
        simp [this]
  · simp [handleActionChangeRule, replyAndReturn_events, changeRuleLoop, sentReplies,
      buildReply_none, NewReply]

/-- Evaluation for C10: one rule that deserializes and a rule store whose `Replace`
returns "disk full": the handler calls `Replace` once and replies ERROR "disk full". -/
theorem handleActionChangeRule_disk_full :
    (handleActionChangeRule diskFullEnv 0 sampleChangeRule).events
      = [Event.rulesReplace ⟨"allow-dns", false, "always", ""⟩ true (some ⟨"disk full"⟩),
         Event.send ⟨11, NotificationReplyCode.ERROR, "disk full"⟩] := by
  simp [handleActionChangeRule, replyAndReturn_events, changeRuleLoop, diskFullEnv,
    sampleEnv, sampleChangeRule, buildReply_some]

theorem setEnabledLoop_all_deserialize (env : Env σ) (enabled : Bool)
    (rules : List ProtoRule) (s : σ) (err : Option GoError)
    (hall : ∀ rul ∈ rules, (env.ruleDeserialize rul).1 ≠ none) :
    (setEnabledLoop env enabled rules s err).2.2 ≠ none ∧
    sentReplies (setEnabledLoop env enabled rules s err).2.1 = [] ∧
    replaceCalls (setEnabledLoop env enabled rules s err).2.1
      = (rules.filterMap (fun rul => (env.ruleDeserialize rul).1)).map
          (fun r => ({ r with Enabled := enabled }, decide (r.Duration = env.ruleAlways))) := by
  induction rules generalizing s err with
  | nil => simp [setEnabledLoop, sentReplies, replaceCalls]
  | cons rul rest ih =>
    have hrest : ∀ r ∈ rest, (env.ruleDeserialize r).1 ≠ none :=
      fun r hr => hall r (List.mem_cons_of_mem _ hr)
    have hhead := hall rul (List.mem_cons_self _ _)
    unfold setEnabledLoop
    rcases h : (env.ruleDeserialize rul).1 with _ | r0
    · exact absurd h hhead
    · have := ih (env.rulesReplace s { r0 with Enabled := enabled }
        (decide (r0.Duration = env.ruleAlways))).1
        (env.rulesReplace s { r0 with Enabled := enabled }
          (decide (r0.Duration = env.ruleAlways))).2 hrest
      simpa [List.filterMap_cons, h, sentReplies, replaceCalls] using this

/-- Supporting fact for C8: when every rule of the notification deserializes,
`handleActionEnableRule` calls `rules.Replace` once per rule, in order, with Enabled
set to true, the other fields untouched and the save flag `Duration == rule.Always`,
and then sends one reply. -/
theorem handleActionEnableRule_all_deserialize (env : Env σ) (s : σ) (notif : Notification)
    (hall : ∀ rul ∈ notif.Rules, (env.ruleDeserialize rul).1 ≠ none) :
    (handleActionEnableRule env s notif).panicked = false ∧
    replaceCalls (handleActionEnableRule env s notif).events
      = (notif.Rules.filterMap (fun rul => (env.ruleDeserialize rul).1)).map
          (fun r => ({ r with Enabled := true }, decide (r.Duration = env.ruleAlways))) ∧
    (sentReplies (handleActionEnableRule env s notif).events).length = 1 := by
  have h := setEnabledLoop_all_deserialize env true notif.Rules s none hall
  unfold handleActionEnableRule
  rcases hl : setEnabledLoop env true notif.Rules s none with ⟨s1, evs, _ | err⟩
  · rw [hl] at h
    exact absurd rfl h.1
  · rw [hl] at h
    simp only at h
    simp [replyAndReturn_events, replyAndReturn_panicked, replaceCalls_append,
      sentReplies_append, h.2.1, h.2.2, replaceCalls, sentReplies]

/-- The supporting fact for C8 on a notification with the single rule allow-dns. -/
theorem handleActionEnableRule_all_deserialize_witness :
    (∀ rul ∈ ({ sampleRulesNotification with Rules := [⟨"allow-dns", "always"⟩] } :
        Notification).Rules, ((sampleEnv none).ruleDeserialize rul).1 ≠ none) ∧
    replaceCalls (handleActionEnableRule (sampleEnv none) 0
        { sampleRulesNotification with Rules := [⟨"allow-dns", "always"⟩] }).events
      = [(⟨"allow-dns", true, "always", ""⟩, true)] := by
  have hall : ∀ rul ∈ ({ sampleRulesNotification with Rules := [⟨"allow-dns", "always"⟩] } :
        Notification).Rules, ((sampleEnv none).ruleDeserialize rul).1 ≠ none := by
    intro rul hrul
    simp at hrul
    subst hrul
    simp [sampleEnv]
  refine ⟨hall, ?_⟩
  rw [(handleActionEnableRule_all_deserialize (sampleEnv none) 0 _ hall).2.1]
  simp [sampleEnv]

/-- C8 (failing input): when the first rule of an ENABLE_RULE or DISABLE_RULE
notification deserializes to nil, the handler panics on `r.Enabled = ...`: `rules.Replace`
is called for none of the rules that follow, although they deserialize, and no reply
is sent. -/
theorem handleActionEnableRule_nil_rule_panics (env : Env σ) (s : σ) (notif : Notification)
    (bad : ProtoRule) (rest : List ProtoRule)
    (hrules : notif.Rules = bad :: rest)
    (hbad : (env.ruleDeserialize bad).1 = none) :
    (handleActionEnableRule env s notif).panicked = true ∧
    replaceCalls (handleActionEnableRule env s notif).events = [] ∧
    sentReplies (handleActionEnableRule env s notif).events = [] ∧
    (handleActionDisableRule env s notif).panicked = true ∧
    replaceCalls (handleActionDisableRule env s notif).events = [] ∧
    sentReplies (handleActionDisableRule env s notif).events = [] := by
  simp [handleActionEnableRule, handleActionDisableRule, hrules, setEnabledLoop, hbad,
    replaceCalls, sentReplies]

/-- C8, evaluated: rule broken has no payload and deserializes to nil, rule allow-dns
deserializes, and the handler panics before any `rules.Replace`. -/
theorem handleActionEnableRule_nil_rule_panics_witness :
    sampleRulesNotification.Rules = [⟨"broken", ""⟩, ⟨"allow-dns", "always"⟩] ∧
    ((sampleEnv none).ruleDeserialize ⟨"broken", ""⟩).1 = none ∧
    ((sampleEnv none).ruleDeserialize ⟨"allow-dns", "always"⟩).1
      = some ⟨"allow-dns", false, "always", ""⟩ ∧
    (handleActionEnableRule (sampleEnv none) 0 sampleRulesNotification).panicked = true ∧
    replaceCalls (handleActionEnableRule (sampleEnv none) 0 sampleRulesNotification).events
      = [] :=
  have h := handleActionEnableRule_nil_rule_panics (sampleEnv none) 0 sampleRulesNotification
    ⟨"broken", ""⟩ [⟨"allow-dns", "always"⟩] rfl (by simp [sampleEnv])
  ⟨rfl, by simp [sampleEnv], by simp [sampleEnv], h.1, h.2.1⟩

/-- C4 (failing input): when `monitor.ReconfigureMonitorMethod` returns a non-nil
error with What above NoError and a nil Msg, `handleActionEnableInterception` replies
`sendNotificationReply(..., err.Msg)`: the one reply it sends has Code OK, and
`firewall.EnableInterception` is not called. -/
theorem handleActionEnableInterception_nil_msg (env : Env σ) (s : σ) (notif : Notification)
    (what : Int)
    (hm : (env.reconfigureMonitorMethod s env.config).2 = some ⟨what, none⟩)
    (hw : what > env.monitorNoError) :
    (handleActionEnableInterception env s notif).events
      = [Event.reconfigureMonitorMethod env.config,
         Event.send ⟨notif.Id, NotificationReplyCode.OK, ""⟩] := by
  simp [handleActionEnableInterception, hm, hw, replyAndReturn_events, buildReply_none]

/-- C4, evaluated: the monitor returns What 2 with a nil Msg and the reply to
notification 9 is OK. -/
theorem handleActionEnableInterception_nil_msg_witness :
    ((sampleEnv (some ⟨2, none⟩)).reconfigureMonitorMethod 0
        (sampleEnv (some ⟨2, none⟩)).config).2 = some ⟨2, none⟩ ∧
    (2 : Int) > (sampleEnv (some ⟨2, none⟩)).monitorNoError ∧
    sentReplies (handleActionEnableInterception (sampleEnv (some ⟨2, none⟩)) 0
        sampleTaskStop).events = [⟨9, NotificationReplyCode.OK, ""⟩] := by
  have h := handleActionEnableInterception_nil_msg (sampleEnv (some ⟨2, none⟩)) 0
    sampleTaskStop 2 rfl (by decide)
  refine ⟨rfl, by decide, ?_⟩
  rw [h]
  rfl

/-- Supporting fact for C4: both interception handlers send exactly one reply on
every path, with the notification id. The DISABLE reply is ERROR exactly when
`firewall.DisableInterception` returned an error. The ENABLE reply is ERROR exactly when
the monitor failed with a non-nil Msg, or the monitor did not fail and
`firewall.EnableInterception` returned an error. -/
theorem interception_replies (env : Env σ) (s : σ) (notif : Notification) :
    (∃ reply : NotificationReply,
      sentReplies (handleActionEnableInterception env s notif).events = [reply] ∧
      reply.Id = notif.Id ∧
      (reply.Code = NotificationReplyCode.ERROR ↔
        (match (env.reconfigureMonitorMethod s env.config).2 with
          | none =>
            (env.enableInterception (env.reconfigureMonitorMethod s env.config).1).2 ≠ none
          | some err =>
            if err.What > env.monitorNoError then err.Msg ≠ none
            else
              (env.enableInterception (env.reconfigureMonitorMethod s env.config).1).2
                ≠ none))) ∧
    (∃ reply : NotificationReply,
      sentReplies (handleActionDisableInterception env s notif).events = [reply] ∧
      reply.Id = notif.Id ∧
      (reply.Code = NotificationReplyCode.ERROR ↔
        (env.disableInterception (env.monitorEnd s)).2 ≠ none)) := by
  have key : ∀ e : Option GoError, (buildReply notif.Id "" e).Id = notif.Id ∧
      ((buildReply notif.Id "" e).Code = NotificationReplyCode.ERROR ↔ e ≠ none) := by
    intro e
    cases e <;> simp [buildReply_none, buildReply_some]
  constructor
  · unfold handleActionEnableInterception
    rcases hm : (env.reconfigureMonitorMethod s env.config).2 with _ | err
    · exact ⟨_, by simp [hm, replyAndReturn_events, sendNotificationReply_events, sentReplies], (key _).1, (key _).2⟩
    · by_cases hw : err.What > env.monitorNoError
      · refine ⟨buildReply notif.Id "" err.Msg, ?_, (key _).1, ?_⟩
        · simp [hm, hw, replyAndReturn_events, sendNotificationReply_events, sentReplies]
        · simpa [hw] using (key err.Msg).2
      · refine ⟨buildReply notif.Id ""
          (env.enableInterception (env.reconfigureMonitorMethod s env.config).1).2,
          ?_, (key _).1, ?_⟩
        · simp [hm, hw, replyAndReturn_events, sendNotificationReply_events, sentReplies]
        · simpa [hw] using (key _).2
  · exact ⟨_, by simp [handleActionDisableInterception, replyAndReturn_events,
      sendNotificationReply_events, sentReplies],
      (key _).1, (key _).2⟩

/-- C2 (failing input): an error is read from `firewall.ErrorsChan()` while
`ErrChanEmpty()` answers false, and then the 2-second timer fires. The goroutine
returns after sending one reply with Code OK and empty Data, although one error was
drained. -/
theorem drainErrors_timeout_after_error (env : Env σ) (s : σ) (nID : Nat) (fwerr : String) :
    (drainErrors env nID [DrainEvent.errorReceived fwerr false, DrainEvent.timeout] s).2
      = ([Event.send ⟨nID, NotificationReplyCode.OK, ""⟩], true) ∧
    drainedErrors [DrainEvent.errorReceived fwerr false, DrainEvent.timeout] = [fwerr] := by
  simp [drainErrors, drainErrorsLoop, drainedErrors, sendNotificationReply_events,
    buildReply_none]

theorem drainErrorsLoop_returned (env : Env σ) (nID : Nat) (obs : List DrainEvent)
    (errors : String) (s : σ)
    (hret : (drainErrorsLoop env nID errors obs s).2.2 = true) :
    ∃ reply : NotificationReply,
      (drainErrorsLoop env nID errors obs s).2.1 = [Event.send reply] ∧
      reply.Id = nID ∧
      ((reply.Code = NotificationReplyCode.OK ∧ reply.Data = "" ∧
          ∃ before after : List DrainEvent, obs = before ++ DrainEvent.timeout :: after ∧
            ∀ o ∈ before, ∃ e, o = DrainEvent.errorReceived e false) ∨
       (reply.Code = NotificationReplyCode.ERROR ∧
          ∃ (before after : List DrainEvent) (e : String),
            obs = before ++ DrainEvent.errorReceived e true :: after ∧
            ∀ o ∈ before, ∃ e, o = DrainEvent.errorReceived e false)) := by
  induction obs generalizing errors with
  | nil => simp [drainErrorsLoop] at hret
  | cons o rest ih =>
    cases o with
    | timeout =>
      refine ⟨buildReply nID "" none, ?_, rfl, Or.inl ⟨rfl, rfl, [], rest, rfl, ?_⟩⟩
      · simp [drainErrorsLoop, sendNotificationReply_events]
      · intro o ho
        simp at ho
    | errorReceived fwerr chanEmpty =>
      cases chanEmpty with
      | true =>
        refine ⟨buildReply nID "" (some (Errorf ""
          (Operand.str (Sprint [Operand.str errors, Operand.str fwerr, Operand.str ","])))),
          ?_, ?_, Or.inr ⟨?_, [], rest, fwerr, rfl, ?_⟩⟩
        · simp [drainErrorsLoop, sendNotificationReply_events]
        · simp [buildReply_some]
        · simp [buildReply_some]
        · intro o ho
          simp at ho
      | false =>
        have hret2 : (drainErrorsLoop env nID
            (Sprint [Operand.str errors, Operand.str fwerr, Operand.str ","]) rest s).2.2
              = true := by
          simpa [drainErrorsLoop] using hret
        obtain ⟨reply, hev, hid, hcode⟩ := ih _ hret2
        refine ⟨reply, ?_, hid, ?_⟩
        · simpa [drainErrorsLoop] using hev
        · rcases hcode with ⟨hc, hdata, before, after, hobs, hall⟩ |
            ⟨hc, before, after, e, hobs, hall⟩
          · refine Or.inl ⟨hc, hdata, DrainEvent.errorReceived fwerr false :: before, after,
              by simp [hobs], ?_⟩
            intro o ho
            rcases List.mem_cons.mp ho with h | h
            · exact ⟨fwerr, h⟩
            · exact hall o h
          · refine Or.inr ⟨hc, DrainEvent.errorReceived fwerr false :: before, after, e,
              by simp [hobs], ?_⟩
            intro o ho
            rcases List.mem_cons.mp ho with h | h
            · exact ⟨fwerr, h⟩
            · exact hall o h

/-- Supporting fact for C2: every run of the draining goroutine that returns has
sent exactly one reply, with the notification id. The reply is OK (with empty Data)
exactly when the run ended on the timer, whatever was drained before, and ERROR
exactly when it ended on an error read with `ErrChanEmpty()` true. -/
theorem drainErrors_returned (env : Env σ) (nID : Nat) (obs : List DrainEvent) (s : σ)
    (hret : (drainErrors env nID obs s).2.2 = true) :
    ∃ reply : NotificationReply,
      (drainErrors env nID obs s).2.1 = [Event.send reply] ∧
      reply.Id = nID ∧
      ((reply.Code = NotificationReplyCode.OK ∧ reply.Data = "" ∧
          ∃ before after : List DrainEvent, obs = before ++ DrainEvent.timeout :: after ∧
            ∀ o ∈ before, ∃ e, o = DrainEvent.errorReceived e false) ∨
       (reply.Code = NotificationReplyCode.ERROR ∧
          ∃ (before after : List DrainEvent) (e : String),
            obs = before ++ DrainEvent.errorReceived e true :: after ∧
            ∀ o ∈ before, ∃ e, o = DrainEvent.errorReceived e false)) :=
  drainErrorsLoop_returned env nID obs "" s hret

/-- The supporting fact for C2 on a run that ends on its first error. -/
theorem drainErrors_returned_witness :
    (drainErrors (sampleEnv none) 4 [DrainEvent.errorReceived "bad rule" true] 0).2.2 = true ∧
    ∃ reply : NotificationReply,
      (drainErrors (sampleEnv none) 4 [DrainEvent.errorReceived "bad rule" true] 0).2.1
        = [Event.send reply] ∧ reply.Id = 4 := by
  obtain ⟨reply, h1, h2, _⟩ := drainErrors_returned (sampleEnv none) 4
    [DrainEvent.errorReceived "bad rule" true] 0 rfl
  exact ⟨rfl, reply, h1, h2⟩

/-! ## The reconciliation engine -/

theorem updFirst_at {α : Type} (p : α → Bool) (f : α → Option α) (before after : List α)
    (x : α) (hbefore : ∀ y ∈ before, p y = false) (hx : p x = true) :
    updFirst p f (before ++ x :: after) = (f x).map (fun y => before ++ y :: after) := by
  induction before with
  | nil => simp [updFirst, hx]
  | cons b rest ih =>
    have hb : p b = false := hbefore b (List.mem_cons_self _ _)
    have hrest : ∀ y ∈ rest, p y = false := fun y hy => hbefore y (List.mem_cons_of_mem _ hy)
    have hind := ih hrest
    simp only [List.cons_append, updFirst, hb, List.append_eq, hind]
    cases f x <;> simp

theorem Batch_append (k : Kernel) (a b : List Operation) :
    Batch k (a ++ b) = (Batch k a).bind (fun k1 => Batch k1 b) := by
  induction a generalizing k with
  | nil => simp [Batch]
  | cons op rest ih =>
    simp only [List.cons_append, Batch]
    cases applyOp k op with
    | none => simp
    | some k1 => simpa using ih k1

theorem ruleOps_fresh (force : Bool) (family table chain : String) (i : Nat)
    (rs : List RuleSpec) :
    ruleOps force [] family table chain i rs
      = rs.map (fun r => Operation.AddRule family table chain (mkRule r)) := by
  induction rs generalizing i with
  | nil => rfl
  | cons r rest ih => simp [ruleOps, ih]

/-- Appending rules to one chain of one table, all other objects untouched. -/
theorem Batch_addRules (family table chain : String) (base : Option BaseHook) (tg : Bool)
    (tbefore tafter : List KTable) (cbefore cafter : List KChain) (rs : List KRule)
    (htb : ∀ t ∈ tbefore, isTable family table t = false)
    (hcb : ∀ c ∈ cbefore, isChain chain c = false) (cur : List KRule) :
    Batch (tbefore ++ ⟨family, table, cbefore ++ ⟨chain, base, tg, cur⟩ :: cafter⟩ :: tafter)
        (rs.map (fun r => Operation.AddRule family table chain r))
      = some (tbefore
          ++ ⟨family, table, cbefore ++ ⟨chain, base, tg, cur ++ rs⟩ :: cafter⟩ :: tafter) := by
  induction rs generalizing cur with
  | nil => simp [Batch]
  | cons r rest ih =>
    simp only [List.map_cons, Batch, applyOp, updChain]
    rw [updFirst_at _ _ tbefore tafter _ htb (by simp [isTable])]
    simp only []
    rw [updFirst_at _ _ cbefore cafter _ hcb (by simp [isChain])]
    simp only [Option.map_some']
    rw [ih (cur ++ [r])]
    simp

theorem Batch_chainOps_fresh (force : Bool) (t : TableSpec) (c : ChainSpec)
    (tbefore tafter : List KTable) (cs : List KChain)
    (htb : ∀ x ∈ tbefore, isTable t.family t.name x = false)
    (hc : ∀ x ∈ cs, isChain c.name x = false) :
    Batch (tbefore ++ ⟨t.family, t.name, cs⟩ :: tafter) (chainOps force [] t c)
      = some (tbefore ++ ⟨t.family, t.name, cs ++ [mkChain c]⟩ :: tafter) := by
  have hany : cs.any (isChain c.name) = false := by
    rw [List.any_eq_false]
    intro x hx
    simp [hc x hx]
  simp only [chainOps, findChain, findTable, List.find?_nil, ruleOps_fresh, Batch, applyOp]
  rw [updFirst_at _ _ tbefore tafter _ htb (by simp [isTable])]
  simp only [hany, Bool.false_eq_true, if_false, Option.map_some']
  have h := Batch_addRules t.family t.name c.name c.base true tbefore tafter cs []
    (c.rules.map mkRule) htb hc []
  rw [List.map_map] at h
  simpa [mkChain, Function.comp] using h

theorem Batch_chainsOps_fresh (force : Bool) (t : TableSpec) (tbefore tafter : List KTable)
    (cs : List ChainSpec) (done : List KChain)
    (htb : ∀ x ∈ tbefore, isTable t.family t.name x = false)
    (hnodup : (cs.map (fun c => c.name)).Nodup)
    (hdone : ∀ c ∈ cs, ∀ x ∈ done, isChain c.name x = false) :
    Batch (tbefore ++ ⟨t.family, t.name, done⟩ :: tafter) (chainsOps force [] t cs)
      = some (tbefore ++ ⟨t.family, t.name, done ++ cs.map mkChain⟩ :: tafter) := by
  induction cs generalizing done with
  | nil => simp [chainsOps, Batch]
  | cons c rest ih =>
    simp only [List.map_cons, List.nodup_cons] at hnodup
    simp only [chainsOps, Batch_append]
    rw [Batch_chainOps_fresh force t c tbefore tafter done htb
      (hdone c (List.mem_cons_self _ _))]
    simp only [Option.some_bind]
    rw [ih (done ++ [mkChain c]) hnodup.2]
    · simp
    · intro c2 hc2 x hx
      rcases List.mem_append.mp hx with h | h
      · exact hdone c2 (List.mem_cons_of_mem _ hc2) x h
      · simp only [List.mem_singleton] at h
        subst h
        simp only [isChain, mkChain, decide_eq_false_iff_not]
        intro heq
        apply hnodup.1
        rw [heq]
        exact List.mem_map_of_mem (fun c => c.name) hc2

theorem Batch_addOps_fresh (force : Bool) (d : RulesetDescription) (done : Kernel)
    (hnodup : tablesUnique d) (hch : ∀ t ∈ d, chainsUnique t)
    (hdone : ∀ t ∈ d, ∀ x ∈ done, isTable t.family t.name x = false) :
    Batch done (addOps force [] d) = some (done ++ d.map mkTable) := by
  induction d generalizing done with
  | nil => simp [addOps, Batch]
  | cons t rest ih =>
    unfold tablesUnique at hnodup
    simp only [List.map_cons, List.nodup_cons] at hnodup
    have hhead := hdone t (List.mem_cons_self _ _)
    have hany : done.any (isTable t.family t.name) = false := by
      rw [List.any_eq_false]
      intro x hx
      simp [hhead x hx]
    rw [show addOps force [] (t :: rest) = Operation.AddTable t.family t.name
        :: (chainsOps force [] t t.chains ++ addOps force [] rest) from by
      simp [addOps, tableOps, findTable]]
    simp only [Batch, applyOp, hany, Bool.false_eq_true, if_false]
    rw [Batch_append]
    have hchains := Batch_chainsOps_fresh force t done [] t.chains [] hhead
      (hch t (List.mem_cons_self _ _)) (by simp)
    simp only [List.nil_append] at hchains
    rw [hchains]
    simp only [Option.some_bind]
    have hrest := ih (done ++ [mkTable t]) hnodup.2
      (fun t2 ht2 => hch t2 (List.mem_cons_of_mem _ ht2))
      (by
        intro t2 ht2 x hx
        rcases List.mem_append.mp hx with h | h
        · exact hdone t2 (List.mem_cons_of_mem _ ht2) x h
        · simp only [List.mem_singleton] at h
          subst h
          simp only [isTable, mkTable, decide_eq_false_iff_not]
          intro heq
          apply hnodup.1
          have hmem := List.mem_map_of_mem (fun t => (t.family, t.name)) ht2
          simpa [heq.1, heq.2] using hmem)
    simpa [mkTable] using hrest

theorem find_of_nodup {α β : Type} (key : α → β) (p : α → Bool) (l : List α) (x : α)
    (hx : x ∈ l) (hn : (l.map key).Nodup) (hp : ∀ y, p y = true ↔ key y = key x) :
    l.find? p = some x := by
  induction l with
  | nil => simp at hx
  | cons a rest ih =>
    simp only [List.map_cons, List.nodup_cons] at hn
    by_cases hpa : p a = true
    · have hax : x = a := by
        rcases List.mem_cons.mp hx with h | h
        · exact h
        · exfalso
          apply hn.1
          rw [(hp a).mp hpa]
          exact List.mem_map_of_mem key h
      simp [List.find?_cons, hpa, hax]
    · have hne : x ≠ a := by
        intro h
        apply hpa
        rw [← h]
        exact (hp x).mpr rfl
      have hmem : x ∈ rest := by
        rcases List.mem_cons.mp hx with h | h
        · exact absurd h hne
        · exact h
      simp only [Bool.not_eq_true] at hpa
      simp [List.find?_cons, hpa, ih hmem hn.2]

theorem findTable_mkTable (d : RulesetDescription) (t : TableSpec) (ht : t ∈ d)
    (hn : tablesUnique d) :
    findTable (d.map mkTable) t.family t.name = some (mkTable t) := by
  unfold findTable
  apply find_of_nodup (fun k : KTable => (k.family, k.name))
  · exact List.mem_map_of_mem mkTable ht
  · unfold tablesUnique at hn
    simpa [List.map_map, Function.comp, mkTable] using hn
  · intro y
    simp [isTable, mkTable]

theorem findTable_bareTable (d : RulesetDescription) (t : TableSpec) (ht : t ∈ d)
    (hn : tablesUnique d) :
    findTable (d.map bareTable) t.family t.name = some (bareTable t) := by
  unfold findTable
  apply find_of_nodup (fun k : KTable => (k.family, k.name))
  · exact List.mem_map_of_mem bareTable ht
  · unfold tablesUnique at hn
    simpa [List.map_map, Function.comp, bareTable] using hn
  · intro y
    simp [isTable, bareTable]

theorem ListRules_mkTable (d : RulesetDescription) (t : TableSpec) (c : ChainSpec)
    (ht : t ∈ d) (hc : c ∈ t.chains) (hn : tablesUnique d) (hcn : chainsUnique t) :
    ListRules (d.map mkTable) t.family t.name c.name = c.rules.map mkRule := by
  have hfind : (mkTable t).chains.find? (isChain c.name) = some (mkChain c) := by
    apply find_of_nodup (fun k : KChain => k.name)
    · exact List.mem_map_of_mem mkChain hc
    · unfold chainsUnique at hcn
      simpa [mkTable, List.map_map, Function.comp, mkChain] using hcn
    · intro y
      simp [isChain, mkChain]
  simp [ListRules, findChain, findTable_mkTable d t ht hn, hfind, mkChain]

theorem ListRules_bareTable (d : RulesetDescription) (t : TableSpec) (ht : t ∈ d)
    (hn : tablesUnique d) (chain : String) :
    ListRules (d.map bareTable) t.family t.name chain = [] := by
  simp [ListRules, findChain, findTable_bareTable d t ht hn, bareTable]

theorem validate_ok (d : RulesetDescription) (h : validate d = Except.ok ()) :
    tablesUnique d ∧ (∀ t ∈ d, chainsUnique t) := by
  unfold validate at h
  by_cases h1 : tablesUnique d
  · by_cases h2 : ∀ t ∈ d, t.family ∈ supportedFamilies
    · by_cases h3 : ∀ t ∈ d, chainsUnique t
      · exact ⟨h1, h3⟩
      · rw [if_neg (not_not.mpr h1), if_neg (not_not.mpr h2), if_pos h3] at h
        cases h
    · rw [if_neg (not_not.mpr h1), if_pos h2] at h
      cases h
  · rw [if_pos h1] at h
    cases h

theorem LoadDiskConfiguration_ok (disk : String → Option RulesetDescription)
    (forceReload : Bool) (e : Engine)
    (h : (LoadDiskConfiguration disk forceReload e).2 = Except.ok ()) :
    (LoadDiskConfiguration disk forceReload e).1.kernel = e.kernel ∧
    (LoadDiskConfiguration disk forceReload e).1.state = ObjState.Declared ∧
    validate (LoadDiskConfiguration disk forceReload e).1.active = Except.ok () := by
  unfold LoadDiskConfiguration at h ⊢
  rcases hd : disk e.configFile with _ | d
  · simp [hd] at h
  · rcases hv : validate d with v | u
    · simp [hd, hv] at h
    · by_cases hp : e.preloadCallback d = false
      · simp [hd, hv, hp] at h
      · simp [hd, hv, hp]

theorem AddSystemRules_fresh (e : Engine) (hempty : e.kernel = [])
    (hvalid : validate e.active = Except.ok ()) :
    AddSystemRules false false e
      = ({ e with kernel := e.active.map mkTable, state := ObjState.Applied },
          Except.ok (addOps false [] e.active)) := by
  have hv := validate_ok e.active hvalid
  have hb := Batch_addOps_fresh false e.active [] hv.1 hv.2 (by simp)
  simp only [List.nil_append] at hb
  simp [AddSystemRules, hempty, hb]

/-- C6: after a successful `LoadDiskConfiguration` into an engine whose kernel
namespace is empty, `AddSystemRules(false, false)` returns Ok and every chain the loaded
description declares lists exactly as many rules as the description gives it. -/
theorem AddSystemRules_rule_counts (disk : String → Option RulesetDescription)
    (forceReload : Bool) (e : Engine) (hempty : e.kernel = [])
    (hload : (LoadDiskConfiguration disk forceReload e).2 = Except.ok ()) :
    (∃ ops, (AddSystemRules false false (LoadDiskConfiguration disk forceReload e).1).2
      = Except.ok ops) ∧
    ∀ t ∈ (LoadDiskConfiguration disk forceReload e).1.active, ∀ c ∈ t.chains,
      (ListRules (AddSystemRules false false (LoadDiskConfiguration disk forceReload e).1).1.kernel
        t.family t.name c.name).length = c.rules.length := by
  obtain ⟨hk, _, hvalid⟩ := LoadDiskConfiguration_ok disk forceReload e hload
  have hadd := AddSystemRules_fresh (LoadDiskConfiguration disk forceReload e).1
    (by rw [hk, hempty]) hvalid
  have hv := validate_ok _ hvalid
  rw [hadd]
  refine ⟨⟨_, rfl⟩, ?_⟩
  intro t ht c hc
  simp only []
  rw [ListRules_mkTable _ t c ht hc hv.1 (hv.2 t ht)]
  simp

/-- C6, evaluated on the test fixture in an empty namespace: the chains filter_input,
mangle_output and mangle_forward of inet/opensnitch list 1, 3 and 1 rules. -/
theorem AddSystemRules_rule_counts_witness :
    (newEngine []).kernel = [] ∧
    (LoadDiskConfiguration fixtureDisk false (newEngine [])).2 = Except.ok () ∧
    (ListRules (AddSystemRules false false
        (LoadDiskConfiguration fixtureDisk false (newEngine [])).1).1.kernel
      "inet" "opensnitch" "filter_input").length = 1 ∧
    (ListRules (AddSystemRules false false
        (LoadDiskConfiguration fixtureDisk false (newEngine [])).1).1.kernel
      "inet" "opensnitch" "mangle_output").length = 3 ∧
    (ListRules (AddSystemRules false false
        (LoadDiskConfiguration fixtureDisk false (newEngine [])).1).1.kernel
      "inet" "opensnitch" "mangle_forward").length = 1 := by
  have h := (AddSystemRules_rule_counts fixtureDisk false (newEngine []) rfl rfl).2
  refine ⟨rfl, rfl, ?_, ?_, ?_⟩
  · exact h _ (List.mem_cons_self _ _) _ (List.mem_cons_self _ _)
  · exact h _ (List.mem_cons_self _ _) _
      (List.mem_cons_of_mem _ (List.mem_cons_self _ _))
  · exact h _ (List.mem_cons_self _ _) _
      (List.mem_cons_of_mem _ (List.mem_cons_of_mem _ (List.mem_cons_self _ _)))

/-- Deleting every rule of a chain whose rules are all tagged empties the chain and
touches nothing else. -/
theorem Batch_deleteRules (family table chain : String) (base : Option BaseHook) (tg : Bool)
    (tbefore tafter : List KTable) (cbefore cafter : List KChain) (rs : List KRule)
    (htb : ∀ t ∈ tbefore, isTable family table t = false)
    (hcb : ∀ c ∈ cbefore, isChain chain c = false)
    (hall : ∀ r ∈ rs, r.tagged = true) :
    Batch (tbefore ++ ⟨family, table, cbefore ++ ⟨chain, base, tg, rs⟩ :: cafter⟩ :: tafter)
        (deleteRuleOps family table chain rs)
      = some (tbefore
          ++ ⟨family, table, cbefore ++ ⟨chain, base, tg, []⟩ :: cafter⟩ :: tafter) := by
  induction rs with
  | nil => simp [deleteRuleOps, Batch]
  | cons r rest ih =>
    have hr : r.tagged = true := hall r (List.mem_cons_self _ _)
    have hrest : ∀ x ∈ rest, x.tagged = true := fun x hx => hall x (List.mem_cons_of_mem _ hx)
    simp only [deleteRuleOps, hr, if_true, List.singleton_append, Batch, applyOp, updChain]
    rw [updFirst_at _ _ tbefore tafter _ htb (by simp [isTable])]
    simp only []
    rw [updFirst_at _ _ cbefore cafter _ hcb (by simp [isChain])]
    simp only [List.mem_cons, true_or, if_true, List.erase_cons_head, Option.map_some']
    exact ih hrest

theorem Batch_deleteChainOps (family table : String) (c : ChainSpec)
    (tbefore tafter : List KTable) (cafter : List KChain)
    (htb : ∀ t ∈ tbefore, isTable family table t = false)
    (hca : ∀ x ∈ cafter, isChain c.name x = false) :
    Batch (tbefore ++ ⟨family, table, mkChain c :: cafter⟩ :: tafter)
        (deleteChainOps true family table (mkChain c))
      = some (tbefore ++ ⟨family, table, cafter⟩ :: tafter) := by
  have hall : ∀ r ∈ c.rules.map mkRule, r.tagged = true := by
    intro r hr
    obtain ⟨r0, _, rfl⟩ := List.mem_map.mp hr
    rfl
  have hallb : (c.rules.map mkRule).all (fun r => r.tagged) = true := by
    rw [List.all_eq_true]
    exact hall
  have hrules := Batch_deleteRules family table c.name c.base true tbefore tafter []
    cafter (c.rules.map mkRule) htb (by simp) hall
  simp only [List.nil_append] at hrules
  have hfilter : cafter.filter (fun x => !isChain c.name x) = cafter := by
    rw [List.filter_eq_self]
    intro x hx
    simp [hca x hx]
  simp only [deleteChainOps, mkChain, hallb, and_self, if_true, Batch_append]
  rw [hrules]
  simp only [Option.some_bind, Batch, applyOp]
  rw [updFirst_at _ _ tbefore tafter _ htb (by simp [isTable])]
  have hfilter2 : ∀ a ∈ cafter, ¬ a.name = c.name := by
    intro a ha
    simpa [isChain] using hca a ha
  simpa [isChain, List.find?_cons, List.filter_cons] using hfilter2

theorem Batch_deleteChainsOps (family table : String) (tbefore tafter : List KTable)
    (cs : List ChainSpec)
    (htb : ∀ t ∈ tbefore, isTable family table t = false)
    (hnodup : (cs.map (fun c => c.name)).Nodup) :
    Batch (tbefore ++ ⟨family, table, cs.map mkChain⟩ :: tafter)
        (deleteChainsOps true family table (cs.map mkChain))
      = some (tbefore ++ ⟨family, table, []⟩ :: tafter) := by
  induction cs with
  | nil => simp [deleteChainsOps, Batch]
  | cons c rest ih =>
    simp only [List.map_cons, List.nodup_cons] at hnodup
    simp only [List.map_cons, deleteChainsOps, Batch_append]
    rw [Batch_deleteChainOps family table c tbefore tafter (rest.map mkChain) htb]
    · simp only [Option.some_bind]
      exact ih hnodup.2
    · intro x hx
      obtain ⟨c2, hc2, rfl⟩ := List.mem_map.mp hx
      simp only [isChain, mkChain, decide_eq_false_iff_not]
      intro heq
      apply hnodup.1
      rw [← heq]
      exact List.mem_map_of_mem (fun c => c.name) hc2

theorem Batch_deleteOps (d : RulesetDescription) (done : Kernel)
    (hnodup : tablesUnique d) (hch : ∀ t ∈ d, chainsUnique t)
    (hdone : ∀ t ∈ d, ∀ x ∈ done, isTable t.family t.name x = false) :
    Batch (done ++ d.map mkTable) (deleteOps true (d.map mkTable))
      = some (done ++ d.map bareTable) := by
  induction d generalizing done with
  | nil => simp [deleteOps, Batch]
  | cons t rest ih =>
    unfold tablesUnique at hnodup
    simp only [List.map_cons, List.nodup_cons] at hnodup
    have hhead := hdone t (List.mem_cons_self _ _)
    simp only [List.map_cons, deleteOps, Batch_append]
    have hchains := Batch_deleteChainsOps t.family t.name done (rest.map mkTable) t.chains
      hhead (hch t (List.mem_cons_self _ _))
    simp only [mkTable] at hchains ⊢
    rw [hchains]
    simp only [Option.some_bind]
    have hrest := ih (done ++ [bareTable t]) hnodup.2
      (fun t2 ht2 => hch t2 (List.mem_cons_of_mem _ ht2))
      (by
        intro t2 ht2 x hx
        rcases List.mem_append.mp hx with h | h
        · exact hdone t2 (List.mem_cons_of_mem _ ht2) x h
        · simp only [List.mem_singleton] at h
          subst h
          simp only [isTable, bareTable, decide_eq_false_iff_not]
          intro heq
          apply hnodup.1
          have hmem := List.mem_map_of_mem (fun t => (t.family, t.name)) ht2
          simpa [heq.1, heq.2] using hmem)
    simp only [mkTable, bareTable, List.append_assoc, List.singleton_append] at hrest
    simpa [bareTable] using hrest

theorem DeleteSystemRules_applied (e : Engine) (d : RulesetDescription)
    (hk : e.kernel = d.map mkTable) (hstate : e.state = ObjState.Applied)
    (hnodup : tablesUnique d) (hch : ∀ t ∈ d, chainsUnique t) :
    DeleteSystemRules false false true e
      = ({ e with kernel := d.map bareTable, state := ObjState.Tombstoned },
          Except.ok (deleteOps true (d.map mkTable))) := by
  have hb := Batch_deleteOps d [] hnodup hch (by simp)
  simp only [List.nil_append] at hb
  simp [DeleteSystemRules, hk, hstate, hb]

theorem updFirst_keys {α β : Type} (key : α → β) (p : α → Bool) (f : α → Option α)
    (hf : ∀ x y, f x = some y → key y = key x) (l l2 : List α)
    (h : updFirst p f l = some l2) : l2.map key = l.map key := by
  induction l generalizing l2 with
  | nil => simp [updFirst] at h
  | cons a rest ih =>
    simp only [updFirst] at h
    by_cases hp : p a = true
    · simp only [hp, if_true, Option.map_eq_some'] at h
      obtain ⟨y, hy, rfl⟩ := h
      simp [hf a y hy]
    · simp only [hp, Bool.false_eq_true, if_false, Option.map_eq_some'] at h
      obtain ⟨ys, hys, rfl⟩ := h
      simp [ih ys hys]

theorem updChain_keys (family table chain : String) (f : KChain → Option KChain)
    (k k2 : Kernel) (h : updChain family table chain f k = some k2) :
    tableKeys k2 = tableKeys k := by
  unfold updChain at h
  refine updFirst_keys (fun t : KTable => (t.family, t.name)) _ _ ?_ k k2 h
  intro x y hxy
  simp only [Option.map_eq_some'] at hxy
  obtain ⟨cs, _, rfl⟩ := hxy
  rfl

theorem applyOp_delete_keys (k k2 : Kernel) (family table chain : String) :
    (∀ r, applyOp k (Operation.DeleteRule family table chain r) = some k2 →
      tableKeys k2 = tableKeys k) ∧
    (applyOp k (Operation.DeleteChain family table chain) = some k2 →
      tableKeys k2 = tableKeys k) := by
  constructor
  · intro r h
    exact updChain_keys family table chain _ k k2 h
  · intro h
    simp only [applyOp] at h
    refine updFirst_keys (fun t : KTable => (t.family, t.name)) _ _ ?_ k k2 h
    intro x y hxy
    rcases hfind : x.chains.find? (isChain chain) with _ | c
    · simp [hfind] at hxy
    · by_cases hr : c.rules = []
      · simp only [hfind, hr, if_true, Option.some.injEq] at hxy
        rw [← hxy]
      · simp [hfind, hr] at hxy

theorem Batch_deleteRuleOps_keys (family table chain : String) (rs : List KRule)
    (rest : List Operation) (k k2 : Kernel)
    (hrest : ∀ k1, Batch k1 rest = some k2 → tableKeys k2 = tableKeys k1)
    (h : Batch k (deleteRuleOps family table chain rs ++ rest) = some k2) :
    tableKeys k2 = tableKeys k := by
  induction rs generalizing k with
  | nil => exact hrest k (by simpa [deleteRuleOps] using h)
  | cons r rs ih =>
    by_cases hr : r.tagged = true
    · simp only [deleteRuleOps, hr, if_true, List.singleton_append, List.cons_append,
        Batch] at h
      rcases hop : applyOp k (Operation.DeleteRule family table chain r) with _ | k1
      · simp [hop] at h
      · simp only [hop] at h
        rw [ih k1 h]
        exact (applyOp_delete_keys k k1 family table chain).1 r hop
    · simp only [deleteRuleOps, hr, Bool.false_eq_true, if_false, List.nil_append] at h
      exact ih k h

theorem Batch_deleteChainsOps_keys (purgeChains : Bool) (family table : String)
    (cs : List KChain) (rest : List Operation) (k k2 : Kernel)
    (hrest : ∀ k1, Batch k1 rest = some k2 → tableKeys k2 = tableKeys k1)
    (h : Batch k (deleteChainsOps purgeChains family table cs ++ rest) = some k2) :
    tableKeys k2 = tableKeys k := by
  induction cs generalizing k with
  | nil => exact hrest k (by simpa [deleteChainsOps] using h)
  | cons c cs ih =>
    simp only [deleteChainsOps, deleteChainOps, List.append_assoc] at h
    refine Batch_deleteRuleOps_keys family table c.name c.rules _ k k2 ?_ h
    intro k1 h1
    by_cases hc : purgeChains = true ∧ c.tagged = true ∧
        c.rules.all (fun r => r.tagged) = true
    · rw [if_pos hc] at h1
      simp only [List.singleton_append, List.cons_append, List.nil_append, Batch] at h1
      rcases hop : applyOp k1 (Operation.DeleteChain family table c.name) with _ | k3
      · simp [hop] at h1
      · simp only [hop] at h1
        rw [ih k3 h1]
        exact (applyOp_delete_keys k1 k3 family table c.name).2 hop
    · rw [if_neg hc] at h1
      exact ih k1 (by simpa using h1)

theorem Batch_deleteOps_keys (purgeChains : Bool) (ts : List KTable) (k k2 : Kernel)
    (h : Batch k (deleteOps purgeChains ts) = some k2) : tableKeys k2 = tableKeys k := by
  induction ts generalizing k with
  | nil =>
    simp only [deleteOps, Batch, Option.some.injEq] at h
    rw [h]
  | cons t ts ih =>
    simp only [deleteOps] at h
    exact Batch_deleteChainsOps_keys purgeChains t.family t.name t.chains _ k k2
      (fun k1 h1 => ih k1 h1) h

theorem findTable_ne_none_iff (k : Kernel) (family name : String) :
    findTable k family name ≠ none ↔ (family, name) ∈ tableKeys k := by
  unfold findTable tableKeys
  rw [ne_eq, List.find?_eq_none]
  simp only [isTable, decide_eq_true_eq, not_forall, not_not, List.mem_map, Prod.mk.injEq]
  constructor
  · rintro ⟨t, ht, h1, h2⟩
    exact ⟨t, ht, h1, h2⟩
  · rintro ⟨t, ht, h1, h2⟩
    exact ⟨t, ht, h1, h2⟩

/-- Supporting fact for C7: on any engine state and with any flags,
`DeleteSystemRules` leaves every table of the kernel in place. -/
theorem DeleteSystemRules_keeps_tables (force dryRun purgeChains : Bool) (e : Engine)
    (name family : String) (h : GetTable e name family ≠ none) :
    GetTable (DeleteSystemRules force dryRun purgeChains e).1 name family ≠ none := by
  unfold GetTable at h ⊢
  unfold DeleteSystemRules
  by_cases hs : e.state = ObjState.Tombstoned ∧ force = false
  · simpa [hs] using h
  · cases dryRun with
    | true => simpa [hs] using h
    | false =>
      rcases hb : Batch e.kernel (deleteOps purgeChains e.kernel) with _ | k1
      · simpa [hs, hb] using h
      · have hkeys := Batch_deleteOps_keys purgeChains e.kernel e.kernel k1 hb
        simp only [hs, hb, if_false, Bool.false_eq_true]
        rw [findTable_ne_none_iff] at h ⊢
        rw [hkeys]
        exact h

/-- The supporting fact for C7 on the namespace that holds the fixture's objects. -/
theorem DeleteSystemRules_keeps_tables_witness :
    GetTable (newEngine (fixtureDescription.map mkTable)) "opensnitch" "inet" ≠ none ∧
    GetTable (DeleteSystemRules true false true
        (newEngine (fixtureDescription.map mkTable))).1 "opensnitch" "inet" ≠ none :=
  ⟨by decide, DeleteSystemRules_keeps_tables true false true
    (newEngine (fixtureDescription.map mkTable)) "opensnitch" "inet" (by decide)⟩

/-- C7: after a successful `LoadDiskConfiguration` into an engine whose kernel
namespace is empty (the fresh namespace of `TestDeleteSystemRules`),
`AddSystemRules(false, false)` followed by `DeleteSystemRules(false, false, true)` both
return Ok, every chain the description declares lists zero rules, and `GetTable` still
finds every declared table. On any engine state and with any flags the delete pass
leaves every table in place. -/
theorem DeleteSystemRules_after_add (disk : String → Option RulesetDescription)
    (forceReload : Bool) (e : Engine) (hempty : e.kernel = [])
    (hload : (LoadDiskConfiguration disk forceReload e).2 = Except.ok ()) :
    ((∃ ops, (AddSystemRules false false (LoadDiskConfiguration disk forceReload e).1).2
      = Except.ok ops) ∧
    (∃ ops, (DeleteSystemRules false false true
      (AddSystemRules false false (LoadDiskConfiguration disk forceReload e).1).1).2
        = Except.ok ops) ∧
    ∀ t ∈ (LoadDiskConfiguration disk forceReload e).1.active,
      (∀ c ∈ t.chains,
        (ListRules (DeleteSystemRules false false true
          (AddSystemRules false false (LoadDiskConfiguration disk forceReload e).1).1).1.kernel
          t.family t.name c.name).length = 0) ∧
      GetTable (DeleteSystemRules false false true
          (AddSystemRules false false (LoadDiskConfiguration disk forceReload e).1).1).1
        t.name t.family ≠ none) ∧
    (∀ (force dryRun purgeChains : Bool) (e2 : Engine) (name family : String),
      GetTable e2 name family ≠ none →
      GetTable (DeleteSystemRules force dryRun purgeChains e2).1 name family ≠ none) := by
  refine ⟨?_, fun force dryRun purgeChains e2 name family h =>
    DeleteSystemRules_keeps_tables force dryRun purgeChains e2 name family h⟩
  obtain ⟨hk, _, hvalid⟩ := LoadDiskConfiguration_ok disk forceReload e hload
  have hadd := AddSystemRules_fresh (LoadDiskConfiguration disk forceReload e).1
    (by rw [hk, hempty]) hvalid
  have hv := validate_ok _ hvalid
  rw [hadd]
  have hdel := DeleteSystemRules_applied
    { (LoadDiskConfiguration disk forceReload e).1 with
      kernel := (LoadDiskConfiguration disk forceReload e).1.active.map mkTable,
      state := ObjState.Applied }
    (LoadDiskConfiguration disk forceReload e).1.active rfl rfl hv.1 hv.2
  simp only [] at hdel ⊢
  rw [hdel]
  refine ⟨⟨_, rfl⟩, ⟨_, rfl⟩, ?_⟩
  intro t ht
  constructor
  · intro c _
    simp only []
    rw [ListRules_bareTable _ t ht hv.1]
    rfl
  · simp only [GetTable]
    rw [findTable_bareTable _ t ht hv.1]
    simp

/-- C7, evaluated on the test fixture in an empty namespace: after the
delete pass mangle_output lists no rule and table inet/opensnitch is still there. -/
theorem DeleteSystemRules_after_add_witness :
    (newEngine []).kernel = [] ∧
    (LoadDiskConfiguration fixtureDisk false (newEngine [])).2 = Except.ok () ∧
    (ListRules (DeleteSystemRules false false true (AddSystemRules false false
        (LoadDiskConfiguration fixtureDisk false (newEngine [])).1).1).1.kernel
      "inet" "opensnitch" "mangle_output").length = 0 ∧
    GetTable (DeleteSystemRules false false true (AddSystemRules false false
        (LoadDiskConfiguration fixtureDisk false (newEngine [])).1).1).1
      "opensnitch" "inet" ≠ none := by
  have h := (DeleteSystemRules_after_add fixtureDisk false (newEngine []) rfl rfl).1.2.2
    _ (List.mem_cons_self _ _)
  exact ⟨rfl, rfl, h.1 _ (List.mem_cons_of_mem _ (List.mem_cons_self _ _)), h.2⟩

end OpenSnitch
